import Mathlib

/-!
# Interactive resume: contact form, helpers, cache, typewriter, counters and animations

A shallow embedding of the parts of `interactive-resume/js/main.js`,
`interactive-resume/js/animations.js` and `SJ-VV-Resume/js/utils.js` that the verified
properties are about.

JavaScript strings are modelled by their sequence of UTF-16 code units, which is
what `trim`, `charAt`, `slice` and regular expressions without the `u` flag work on.
Numbers are integers where the code compares and counts whole numbers far below `2^53`, and
IEEE 754 doubles where rounding, `NaN` or an infinity can show.
-/

namespace InteractiveResume

/-! ## JavaScript strings -/

/-- A JavaScript string, as the list of its UTF-16 code units. -/
abbrev JSString := List Nat

/-- The code units of a source literal (used for literals of the Basic Multilingual Plane). -/
def lit (s : String) : JSString := s.toList.map Char.toNat

/-- ECMAScript `WhiteSpace` and `LineTerminator` code units: what `String.prototype.trim`
strips and what the class `\s` matches. -/
def isWhiteSpace (c : Nat) : Bool :=
  c == 0x09 || c == 0x0A || c == 0x0B || c == 0x0C || c == 0x0D || c == 0x20 ||
  c == 0xA0 || c == 0x1680 || (0x2000 ≤ c && c ≤ 0x200A) || c == 0x2028 || c == 0x2029 ||
  c == 0x202F || c == 0x205F || c == 0x3000 || c == 0xFEFF

/-- Removes the longest suffix whose code units all satisfy `p`. -/
def dropEndWhile (p : Nat → Bool) (s : JSString) : JSString :=
  (s.reverse.dropWhile p).reverse

/-- `String.prototype.trim`: strips white space from both ends. -/
def trim (s : JSString) : JSString :=
  dropEndWhile isWhiteSpace (s.dropWhile isWhiteSpace)

/-- `Array.prototype.join` on an array of strings. -/
def join (sep : JSString) (parts : List JSString) : JSString :=
  List.intercalate sep parts

/-! ## Regular-expression matching, in continuation-passing style

Each combinator matches one piece of a pattern at the start of the input and hands the
remaining input to the continuation `k`; alternatives are tried in the order a backtracking
matcher tries them (longest repetition first). -/

/-- Matches `[class]+` greedily, then the rest of the pattern. -/
def reClassPlus (p : Nat → Bool) (k : JSString → Bool) : JSString → Bool
  | [] => false
  | c :: cs => p c && (reClassPlus p k cs || k cs)

/-- Matches one literal code unit, then the rest of the pattern. -/
def reChar (a : Nat) (k : JSString → Bool) : JSString → Bool
  | [] => false
  | c :: cs => c == a && k cs

/-- Matches `$` (end of input; no `m` flag). -/
def reEnd : JSString → Bool
  | [] => true
  | _ :: _ => false

/-- The class `[^\s@]`. -/
def notSpaceAt (c : Nat) : Bool := !(isWhiteSpace c || c == 0x40)

/-- `isValidEmail(email)` of `main.js` and `ValidationUtils.isValidEmail` of `utils.js`:
`/^[^\s@]+@[^\s@]+\.[^\s@]+$/.test(email)`. The leading `^` pins the match to the start of
the input. -/
def isValidEmail (email : JSString) : Bool :=
  reClassPlus notSpaceAt
    (reChar 0x40 (reClassPlus notSpaceAt (reChar 0x2E (reClassPlus notSpaceAt reEnd)))) email

/-! ## Notifications, timers and the page -/

/-- The `type` argument of `showNotification`. -/
inductive NotificationType
  | info
  | success
  | error
  deriving DecidableEq, Repr

/-- A notification element created by `showNotification`. -/
structure Notification where
  id : Nat
  textContent : JSString
  type : NotificationType
  background : JSString
  transform : JSString
  deriving DecidableEq, Repr

/-- The callbacks handed to `setTimeout`. -/
inductive TimerAction
  | slideIn (id : Nat)
  | slideOut (id : Nat)
  | detach (id : Nat)
  | sendComplete (originalText : JSString)
  deriving DecidableEq, Repr

/-- A pending `setTimeout` call. -/
structure Timer where
  action : TimerAction
  delay : Nat
  deriving DecidableEq, Repr

/-- The record built from the form fields at submit time. -/
structure FormData where
  name : JSString
  email : JSString
  subject : JSString
  message : JSString
  deriving DecidableEq, Repr

/-- The submit button of the contact form. -/
structure Button where
  textContent : JSString
  disabled : Bool
  deriving DecidableEq, Repr

/-- The part of the document the contact form controller reads and writes. -/
structure Page where
  fields : FormData
  defaults : FormData
  submitBtn : Button
  notifications : List Notification
  detached : List Notification
  timers : List Timer
  nextId : Nat
  deriving DecidableEq, Repr

/-- The background colour `showNotification` picks for a type. -/
def backgroundOf : NotificationType → JSString
  | .success => lit "#10b981"
  | .error => lit "#ef4444"
  | .info => lit "#6366f1"

/-- `showNotification(message, type)`: removes the first existing notification, appends a new
one (off-screen) and schedules its slide-in after 100 ms and its slide-out after 5000 ms. -/
def showNotification (message : JSString) (type : NotificationType) (p : Page) : Page :=
  let n : Notification :=
    { id := p.nextId, textContent := message, type := type,
      background := backgroundOf type, transform := lit "translateX(100%)" }
  { p with
    notifications := p.notifications.drop 1 ++ [n]
    detached := p.notifications.take 1 ++ p.detached
    timers := p.timers ++ [⟨.slideIn n.id, 100⟩, ⟨.slideOut n.id, 5000⟩]
    nextId := p.nextId + 1 }

/-! ## Form validation -/

/-- The `errors` array `validateForm` builds, in push order. -/
def formErrors (data : FormData) : List JSString :=
  let errors : List JSString := []
  let errors := if (trim data.name).isEmpty then errors ++ [lit "Name is required"] else errors
  let errors :=
    if (trim data.email).isEmpty then errors ++ [lit "Email is required"]
    else if !isValidEmail data.email then errors ++ [lit "Please enter a valid email"]
    else errors
  let errors :=
    if (trim data.subject).isEmpty then errors ++ [lit "Subject is required"] else errors
  let errors :=
    if (trim data.message).isEmpty then errors ++ [lit "Message is required"] else errors
  errors

/-- `validateForm(data)`: the returned boolean and the page after its effects. -/
def validateForm (data : FormData) (p : Page) : Bool × Page :=
  let errors := formErrors data
  if errors.length > 0 then
    (false, showNotification (join (lit ", ") errors) .error p)
  else
    (true, p)

/-! ## The submit handler of the contact form -/

/-- The submit event, of which the handler only touches the default-prevented flag. -/
structure SubmitEvent where
  defaultPrevented : Bool
  deriving DecidableEq, Repr

/-- The listener `initContactForm` registers for `submit`. -/
def submitHandler (e : SubmitEvent) (p : Page) : SubmitEvent × Page :=
  let e := { e with defaultPrevented := true }
  let data : FormData := p.fields
  let (ok, p) := validateForm data p
  if !ok then (e, p)
  else
    let originalText := p.submitBtn.textContent
    let p := { p with submitBtn := { textContent := lit "Sending...", disabled := true } }
    (e, { p with timers := p.timers ++ [⟨.sendComplete originalText, 2000⟩] })

/-- Applies `f` to the notification element with the given id, attached or not. -/
def updateNotification (id : Nat) (f : Notification → Notification) (p : Page) : Page :=
  let g := fun (n : Notification) => if n.id = id then f n else n
  { p with notifications := p.notifications.map g, detached := p.detached.map g }

/-- Runs the callback of a timer that has come due. -/
def runTimer (a : TimerAction) (p : Page) : Page :=
  match a with
  | .slideIn id => updateNotification id (fun n => { n with transform := lit "translateX(0)" }) p
  | .slideOut id =>
    let p := updateNotification id (fun n => { n with transform := lit "translateX(100%)" }) p
    { p with timers := p.timers ++ [⟨.detach id, 300⟩] }
  | .detach id =>
    { p with
      notifications := p.notifications.filter (fun n => n.id ≠ id)
      detached := p.notifications.filter (fun n => n.id = id) ++ p.detached }
  | .sendComplete originalText =>
    let p := showNotification (lit "Message sent successfully!") .success p
    let p := { p with fields := p.defaults }
    let p := { p with submitBtn := { p.submitBtn with textContent := originalText } }
    { p with submitBtn := { p.submitBtn with disabled := false } }

/-- Removes the first pending timer with the given action and runs its callback; a timer that
is not pending does nothing. -/
def fire (t : Timer) (p : Page) : Page :=
  if t ∈ p.timers then runTimer t.action { p with timers := p.timers.erase t } else p

/-! ## String utilities (`StringUtils` of `utils.js`)

`toLowerCase` and `toUpperCase` map every ASCII code unit on its own, whatever surrounds it.
What they do to a code unit outside ASCII is fixed by the Unicode tables of the platform and
may depend on the neighbouring code units (surrogate pairs, final sigma), so it is a
parameter: `uni s i` is what replaces the code unit at index `i` of `s`. -/

/-- The platform's case conversion of the non-ASCII code unit at an index of a string. -/
abbrev CaseTable := JSString → Nat → JSString

/-- Lower-casing of an ASCII code unit. -/
def asciiLower (c : Nat) : Nat := if 0x41 ≤ c ∧ c ≤ 0x5A then c + 0x20 else c

/-- Upper-casing of an ASCII code unit. -/
def asciiUpper (c : Nat) : Nat := if 0x61 ≤ c ∧ c ≤ 0x7A then c - 0x20 else c

/-- Case conversion of the code units `rest` that start at index `i` of `s`. -/
def mapCase (ascii : Nat → Nat) (uni : CaseTable) (s : JSString) : Nat → JSString → JSString
  | _, [] => []
  | i, c :: cs => (if c < 0x80 then [ascii c] else uni s i) ++ mapCase ascii uni s (i + 1) cs

/-- `String.prototype.toLowerCase`. -/
def toLowerCase (uni : CaseTable) (s : JSString) : JSString := mapCase asciiLower uni s 0 s

/-- `String.prototype.toUpperCase`. -/
def toUpperCase (uni : CaseTable) (s : JSString) : JSString := mapCase asciiUpper uni s 0 s

/-- `String.prototype.charAt`: the code unit at an index as a string, `""` out of range. -/
def charAt (s : JSString) (i : Nat) : JSString := (s.get? i).toList

/-- `String.prototype.slice(start)` for a non-negative `start`. -/
def slice (s : JSString) (start : Nat) : JSString := s.drop start

/-- `StringUtils.capitalize(str)`; `upper` and `lower` are the platform's case tables. -/
def capitalize (upper lower : CaseTable) (str : JSString) : JSString :=
  if str.isEmpty then lit ""
  else toUpperCase upper (charAt str 0) ++ toLowerCase lower (slice str 1)

/-- The class `\w`, that is `[A-Za-z0-9_]`. -/
def isWordChar (c : Nat) : Bool :=
  (0x30 ≤ c && c ≤ 0x39) || (0x41 ≤ c && c ≤ 0x5A) || c == 0x5F || (0x61 ≤ c && c ≤ 0x7A)

/-- The class `[\w\s-]`, whose complement the third step of `slugify` deletes. -/
def isSlugKept (c : Nat) : Bool := isWordChar c || isWhiteSpace c || c == 0x2D

/-- The class `[\s_-]`. -/
def isSeparator (c : Nat) : Bool := isWhiteSpace c || c == 0x5F || c == 0x2D

/-- The hyphen test of `/^-+|-+$/`. -/
def isHyphen (c : Nat) : Bool := c == 0x2D

/-- `replace(/[class]+/g, rep)`: a left-to-right scan that replaces every maximal run of class
members by `rep`. `inRun` says that the code unit before the current one belongs to a run
that has been replaced already. -/
def replaceRuns (p : Nat → Bool) (rep : JSString) : Bool → JSString → JSString
  | _, [] => []
  | inRun, c :: cs =>
    if p c then (if inRun then replaceRuns p rep true cs else rep ++ replaceRuns p rep true cs)
    else c :: replaceRuns p rep false cs

/-- `replace(/^-+|-+$/g, "")`: the first alternative removes the hyphens the string starts
with, the second the hyphens the rest ends with. -/
def stripHyphens (s : JSString) : JSString :=
  dropEndWhile isHyphen (s.dropWhile isHyphen)

/-- `StringUtils.slugify(str)`; `lower` is the platform's lower-case table. -/
def slugify (lower : CaseTable) (str : JSString) : JSString :=
  stripHyphens
    (replaceRuns isSeparator (lit "-") false
      ((trim (toLowerCase lower str)).filter isSlugKept))

/-! ## Number utilities (`NumberUtils` of `utils.js`)

Here the numbers are integers, on which `Math.min` and `Math.max` are exact; `clampNumber`
below is the same function on Numbers of every kind, and agrees with `clamp` on these. -/

/-- `Math.max` of two numbers. -/
def mathMax (a b : Int) : Int := if a < b then b else a

/-- `Math.min` of two numbers. -/
def mathMin (a b : Int) : Int := if b < a then b else a

/-- `NumberUtils.clamp(num, min, max)`. -/
def clamp (num min max : Int) : Int := mathMin (mathMax num min) max

/-! ## Numbers as doubles

Where a property ranges over every Number, or depends on rounding, a Number is modelled as the
IEEE 754 double it is. A finite double is a whole multiple of `2^-1074` whose multiplier has at
most 53 significant bits, and is modelled by that multiplier; the result of an operation is the
exact result rounded to the nearest such value, to the one with the even last bit when two are
equally near, and to an infinity from `2^1024` on. The two zeros are one value: they are equal
under every comparison and print alike. -/

/-- The number of binary digits of `n`, none for 0, taken off 64 at a time while there are that
many. The first argument bounds the number of steps; `n` itself is enough. -/
def bitLength : Nat → Nat → Nat
  | 0, _ => 0
  | fuel + 1, n =>
    if n = 0 then 0
    else if 2 ^ 64 ≤ n then bitLength fuel (n / 2 ^ 64) + 64
    else bitLength fuel (n / 2) + 1

/-- The value `q + r / b`, where `r < b`, rounded to the nearest whole number with at most 53
significant bits; of two that are equally near, the one with the even last bit. -/
def roundNearestEven (q r b : Nat) : Nat :=
  let bits := bitLength q q
  if bits ≤ 53 then
    if b < 2 * r ∨ (2 * r = b ∧ q % 2 = 1) then q + 1 else q
  else
    let k := bits - 53
    let m := q / 2 ^ k
    let low := q % 2 ^ k
    let half := 2 ^ (k - 1)
    if half < low ∨ (low = half ∧ (0 < r ∨ m % 2 = 1)) then (m + 1) * 2 ^ k else m * 2 ^ k

/-- A Number: `NaN`, an infinity, or the finite double `units * 2^-1074`. The operations below
give multipliers of at most 53 significant bits below `2^1024`; what is proved for every
multiplier holds for these. -/
inductive Double
  | nan
  | negInf
  | finite (units : Int)
  | posInf
  deriving DecidableEq, Repr

/-- The number one in units of `2^-1074`. -/
def Double.one : Nat := 2 ^ 1074

/-- The magnitude `2^1024`, in units, from which a rounded result is an infinity. -/
def Double.overflow : Nat := 2 ^ 2098

/-- The Number nearest to `q + r / b` units, taken negative when `negative` is set. -/
def Double.round (negative : Bool) (q r b : Nat) : Double :=
  let m := roundNearestEven q r b
  if Double.overflow ≤ m then (if negative then .negInf else .posInf)
  else .finite (if negative then -(m : Int) else (m : Int))

/-- The Number nearest to an integer. -/
def Double.ofInt (n : Int) : Double :=
  Double.round (decide (n < 0)) (n.natAbs * Double.one) 0 1

/-- The operator `+` on Numbers. -/
def Double.add : Double → Double → Double
  | .nan, _ => .nan
  | _, .nan => .nan
  | .posInf, .negInf => .nan
  | .negInf, .posInf => .nan
  | .posInf, _ => .posInf
  | _, .posInf => .posInf
  | .negInf, _ => .negInf
  | _, .negInf => .negInf
  | .finite a, .finite b => Double.round (decide (a + b < 0)) (a + b).natAbs 0 1

/-- The expression `x / 100`. -/
def Double.hundredth : Double → Double
  | .nan => .nan
  | .posInf => .posInf
  | .negInf => .negInf
  | .finite a => Double.round (decide (a < 0)) (a.natAbs / 100) (a.natAbs % 100) 100

/-- `Math.floor`: the whole multiple of one below a finite Number (`/` on integers rounds
down), every other Number as it is. -/
def Double.floor : Double → Double
  | .finite a => .finite (a / (Double.one : Int) * (Double.one : Int))
  | x => x

/-- The operator `<` on Numbers: false when a side is `NaN`. -/
def Double.lt : Double → Double → Bool
  | .nan, _ => false
  | _, .nan => false
  | .finite a, .finite b => decide (a < b)
  | .negInf, .negInf => false
  | .negInf, _ => true
  | .posInf, _ => false
  | .finite _, .posInf => true
  | .finite _, .negInf => false

/-- The operator `<=` on Numbers: false when a side is `NaN`. -/
def Double.le : Double → Double → Bool
  | .nan, _ => false
  | _, .nan => false
  | .finite a, .finite b => decide (a ≤ b)
  | .negInf, _ => true
  | .posInf, .posInf => true
  | .posInf, _ => false
  | .finite _, .posInf => true
  | .finite _, .negInf => false

/-- The operator `>=` on Numbers. -/
def Double.ge (a b : Double) : Bool := Double.le b a

/-- `Math.max` of two Numbers: `NaN` when one of them is. -/
def Double.max (a b : Double) : Double :=
  if a = .nan ∨ b = .nan then .nan else if Double.lt a b then b else a

/-- `Math.min` of two Numbers: `NaN` when one of them is. -/
def Double.min (a b : Double) : Double :=
  if a = .nan ∨ b = .nan then .nan else if Double.lt b a then b else a

/-- `NumberUtils.clamp(num, min, max)` on Numbers of every kind. -/
def clampNumber (num min max : Double) : Double :=
  Double.min (Double.max num min) max

/-! ## What the specification says, in its own words -/

/-- A non-empty string without white space and without `@`. -/
def IsAddressPart (x : JSString) : Prop :=
  x ≠ [] ∧ ∀ c ∈ x, isWhiteSpace c = false ∧ c ≠ 0x40

/-- The `local@domain.tld` pattern. -/
def IsLocalAtDomainDotTld (s : JSString) : Prop :=
  ∃ l d t : JSString, s = l ++ lit "@" ++ d ++ lit "." ++ t ∧
    IsAddressPart l ∧ IsAddressPart d ∧ IsAddressPart t

/-- All four fields are non-empty after trimming and the email is well formed. -/
def AllRulesHold (data : FormData) : Prop :=
  trim data.name ≠ [] ∧ trim data.email ≠ [] ∧ trim data.subject ≠ [] ∧
    trim data.message ≠ [] ∧ isValidEmail data.email = true

/-- The entry a field contributes to the list of violations when it is empty after trimming. -/
def requiredEntry (value label : JSString) : List JSString :=
  if trim value = [] then [label ++ lit " is required"] else []

/-- The entry the email field contributes: missing, or present but malformed. -/
def emailEntry (email : JSString) : List JSString :=
  if trim email = [] then [lit "Email is required"]
  else if isValidEmail email = false then [lit "Please enter a valid email"]
  else []

/-- The violations of a record in the order name, email, subject, message. -/
def violations (data : FormData) : List JSString :=
  requiredEntry data.name (lit "Name") ++ emailEntry data.email ++
    requiredEntry data.subject (lit "Subject") ++ requiredEntry data.message (lit "Message")

/-- A timer of the simulated send. -/
def isSendTimer (t : Timer) : Bool :=
  match t.action with
  | .sendComplete _ => true
  | _ => false

/-- The page of the witnesses: an untouched form with the given field values. -/
def samplePage (data : FormData) : Page :=
  { fields := data, defaults := ⟨[], [], [], []⟩, submitBtn := ⟨lit "Send Message", false⟩,
    notifications := [], detached := [], timers := [], nextId := 0 }

/-- Fires the given timers one after the other. -/
def fireAll (ts : List Timer) (p : Page) : Page :=
  ts.foldl (fun q t => fire t q) p

/-- A lower-case ASCII letter, an ASCII digit or a hyphen. -/
def IsSlugChar (c : Nat) : Prop :=
  (0x61 ≤ c ∧ c ≤ 0x7A) ∨ (0x30 ≤ c ∧ c ≤ 0x39) ∨ c = 0x2D

/-- No two hyphens in a row. -/
def HyphensApart (s : JSString) : Prop :=
  s.Chain' (fun a b => ¬ (a = 0x2D ∧ b = 0x2D))

/-- An upper-case ASCII letter. -/
def IsAsciiUpper (c : Nat) : Prop := 0x41 ≤ c ∧ c ≤ 0x5A

/-- The lower-case table turns no code unit outside ASCII into an upper-case ASCII letter. -/
def YieldsNoAsciiUpper (lower : CaseTable) : Prop :=
  ∀ (s : JSString) (i u : Nat), s.get? i = some u → 0x80 ≤ u →
    ∀ c ∈ lower s i, ¬ IsAsciiUpper c

/-- A sample of the lower-case table: the Kelvin sign becomes `k`, the capital I with dot
above becomes `i` followed by a combining dot, every other code unit stays. -/
def sampleLower : CaseTable := fun s i =>
  match s.get? i with
  | some 0x212A => [0x6B]
  | some 0x0130 => [0x69, 0x0307]
  | some c => [c]
  | none => []

/-- A sample of the upper-case table: the sharp s becomes `SS`, every other code unit stays. -/
def sampleUpper : CaseTable := fun s i =>
  match s.get? i with
  | some 0xDF => [0x53, 0x53]
  | some c => [c]
  | none => []

/-! ## The bounded cache (`PerformanceUtils.createCache` of `utils.js`) -/

/-- A JavaScript `Map`: its entries in insertion order, one per key. -/
abbrev JSMap (κ ν : Type) := List (κ × ν)

/-- `Map.prototype.has`. -/
def mapHas {κ ν : Type} [DecidableEq κ] (m : JSMap κ ν) (key : κ) : Bool :=
  m.any (fun e => decide (e.1 = key))

/-- `Map.prototype.get`, `none` standing for `undefined`. -/
def mapGet {κ ν : Type} [DecidableEq κ] (m : JSMap κ ν) (key : κ) : Option ν :=
  (m.find? (fun e => decide (e.1 = key))).map (fun e => e.2)

/-- `Map.prototype.set`: an existing key keeps its place and gets the new value, a new key is
added at the end. -/
def mapSet {κ ν : Type} [DecidableEq κ] (m : JSMap κ ν) (key : κ) (value : ν) : JSMap κ ν :=
  if mapHas m key then m.map (fun e => if e.1 = key then (key, value) else e)
  else m ++ [(key, value)]

/-- `Map.prototype.delete`. -/
def mapDelete {κ ν : Type} [DecidableEq κ] (m : JSMap κ ν) (key : κ) : JSMap κ ν :=
  m.filter (fun e => decide (e.1 ≠ key))

/-- The value of `cache.keys().next().value`: the oldest key, `none` (for `undefined`) when the
map is empty. -/
def firstKey {κ ν : Type} (m : JSMap κ ν) : Option κ :=
  m.head?.map (fun e => e.1)

/-- The object `createCache` returns: the captured `maxSize` and the `Map` it closes over. -/
structure Cache (κ ν : Type) where
  maxSize : Nat
  cache : JSMap κ ν

/-- `createCache(maxSize)`. -/
def createCache (κ ν : Type) (maxSize : Nat) : Cache κ ν :=
  { maxSize := maxSize, cache := [] }

/-- The method `get(key)` of the cache. -/
def Cache.get {κ ν : Type} [DecidableEq κ] (c : Cache κ ν) (key : κ) : Option ν :=
  mapGet c.cache key

/-- The method `set(key, value)` of the cache: when the map holds `maxSize` entries or more, the
oldest key is deleted first (deleting `undefined` from an empty map does nothing). -/
def Cache.set {κ ν : Type} [DecidableEq κ] (c : Cache κ ν) (key : κ) (value : ν) : Cache κ ν :=
  let cache :=
    if c.cache.length ≥ c.maxSize then
      match firstKey c.cache with
      | some k => mapDelete c.cache k
      | none => c.cache
    else c.cache
  { c with cache := mapSet cache key value }

/-- The method `has(key)` of the cache. -/
def Cache.has {κ ν : Type} [DecidableEq κ] (c : Cache κ ν) (key : κ) : Bool :=
  mapHas c.cache key

/-- The method `clear()` of the cache. -/
def Cache.clear {κ ν : Type} (c : Cache κ ν) : Cache κ ν :=
  { c with cache := [] }

/-- The method `size()` of the cache. -/
def Cache.size {κ ν : Type} (c : Cache κ ν) : Nat :=
  c.cache.length

/-- The calls made on a cache that change it. -/
inductive CacheOp (κ ν : Type)
  | set (key : κ) (value : ν)
  | clear

/-- Makes one call on the cache. -/
def Cache.apply {κ ν : Type} [DecidableEq κ] (c : Cache κ ν) : CacheOp κ ν → Cache κ ν
  | .set key value => c.set key value
  | .clear => c.clear

/-- Makes the calls one after the other. -/
def Cache.run {κ ν : Type} [DecidableEq κ] (c : Cache κ ν) (ops : List (CacheOp κ ν)) :
    Cache κ ν :=
  ops.foldl Cache.apply c

/-- Calls `set` for every pair, in order. -/
def Cache.setAll {κ ν : Type} [DecidableEq κ] (c : Cache κ ν) (kvs : List (κ × ν)) :
    Cache κ ν :=
  kvs.foldl (fun c e => c.set e.1 e.2) c

/-! ## The typewriter (`initTypewriter` of `main.js`) -/

/-- An argument of `substring` brought into the range of the string: negative becomes 0,
beyond the end becomes the length. -/
def clampIndex (len : Nat) (i : Int) : Nat := (max 0 (min i len)).toNat

/-- `String.prototype.substring(start, end)`: both arguments are clamped to the string and
swapped when the first is the larger. -/
def substring (s : JSString) (start stop : Int) : JSString :=
  let a := clampIndex s.length start
  let b := clampIndex s.length stop
  (s.drop (min a b)).take (max a b - min a b)

/-- The variables `initTypewriter` declares and the text content of the element. -/
structure Typewriter where
  textIndex : Nat
  charIndex : Int
  isDeleting : Bool
  typeSpeed : Nat
  textContent : JSString
  deriving DecidableEq, Repr

/-- The state in which `initTypewriter` makes the first call of `type`; `shown` is the text
the element has in the markup. -/
def initTypewriter (shown : JSString) : Typewriter :=
  { textIndex := 0, charIndex := 0, isDeleting := false, typeSpeed := 100, textContent := shown }

/-- One call of `type()`. The result is the state in which it calls
`setTimeout(type, typeSpeed)`; `none` stands for the `TypeError` of calling `substring` on the
`undefined` that an index outside `texts` gives. -/
def type (texts : List JSString) (tw : Typewriter) : Option Typewriter :=
  match texts.get? tw.textIndex with
  | none => none
  | some currentText =>
    let tw :=
      if tw.isDeleting then
        { tw with
          textContent := substring currentText 0 (tw.charIndex - 1)
          charIndex := tw.charIndex - 1
          typeSpeed := 50 }
      else
        { tw with
          textContent := substring currentText 0 (tw.charIndex + 1)
          charIndex := tw.charIndex + 1
          typeSpeed := 100 }
    let tw :=
      if !tw.isDeleting && tw.charIndex == (currentText.length : Int) then
        { tw with isDeleting := true, typeSpeed := 1500 }
      else if tw.isDeleting && tw.charIndex == 0 then
        { tw with
          isDeleting := false
          textIndex := (tw.textIndex + 1) % texts.length
          typeSpeed := 500 }
      else tw
    some tw

/-- The state after the given number of calls of `type`, each scheduled by the one before. -/
def ticks (texts : List JSString) : Nat → Typewriter → Option Typewriter
  | 0, tw => some tw
  | n + 1, tw => (type texts tw).bind (ticks texts n)

/-- The texts the element shows after each of the given number of calls of `type`. -/
def displayed (texts : List JSString) : Nat → Typewriter → List JSString
  | 0, _ => []
  | n + 1, tw =>
    match type texts tw with
    | none => []
    | some next => next.textContent :: displayed texts n next

/-- The initial parts of a phrase of length 1, 2, ..., `L`, then of length `L - 1`, ..., 0. -/
def growShrink (w : JSString) : List JSString :=
  (List.range w.length).map (fun k => w.take (k + 1)) ++
    (List.range w.length).map (fun k => w.take (w.length - 1 - k))

/-- One pass through the phrase list, each phrase grown and shrunk in turn. -/
def onePass (texts : List JSString) : List JSString :=
  (texts.map growShrink).flatten

/-- The first `n` texts of the passes through the phrase list repeated over and over. -/
def expectedTexts (texts : List JSString) (n : Nat) : List JSString :=
  ((List.replicate n (onePass texts)).flatten).take n

/-- The delay the specification gives a tick: by the mode the tick ran in and the text it
left. -/
def expectedDelay (phrase : JSString) (wasDeleting : Bool) (shown : JSString) : Nat :=
  if wasDeleting then (if shown = [] then 500 else 50)
  else (if shown = phrase then 1500 else 100)

/-- What a run shows in `b` further ticks from the state it has reached, nothing once a call
has failed. -/
def displayedNext (texts : List JSString) (b : Nat) : Option Typewriter → List JSString
  | none => []
  | some tw => displayed texts b tw

/-- The states the typewriter passes through: the phrase index is in range, and the character
index is short of the phrase's length while typing and between 1 and the length while
deleting. -/
def TypewriterInv (texts : List JSString) (tw : Typewriter) : Prop :=
  ∃ (w : JSString) (c : Nat), texts.get? tw.textIndex = some w ∧ tw.charIndex = (c : Int) ∧
    (tw.isDeleting = false → c < w.length) ∧ (tw.isDeleting = true → 1 ≤ c ∧ c ≤ w.length)

/-! ## The stats counter (`initStatsCounter` of `main.js`)

The counter's arithmetic is that of doubles: `current` and `increment` are Numbers, and the
parsed `data-count` is the integer its digits give. -/

/-- The interval `animateStats` starts for one `.stat-number` element: the variables its
callback closes over, the Number the callback has written as text (`none` before the first
write) and whether the interval is still set. -/
structure Ramp where
  stat : Nat
  target : Int
  current : Double
  increment : Double
  textContent : Option Double
  running : Bool
  deriving DecidableEq

/-- The state in which `setInterval` is called for the stat element with the given index and
parsed `data-count`. -/
def startRamp (stat : Nat) (target : Int) : Ramp :=
  { stat := stat, target := target, current := Double.ofInt 0,
    increment := Double.hundredth (Double.ofInt target), textContent := none, running := true }

/-- One firing of the interval callback; a cleared interval fires no more. -/
def rampTick (r : Ramp) : Ramp :=
  if !r.running then r
  else
    let r := { r with current := Double.add r.current r.increment }
    let r := { r with textContent := some (Double.floor r.current) }
    if Double.ge r.current (Double.ofInt r.target) then
      { r with textContent := some (Double.ofInt r.target), running := false }
    else r

/-- The state after the given number of firings. -/
def rampTicks : Nat → Ramp → Ramp
  | 0, r => r
  | n + 1, r => rampTicks n (rampTick r)

/-- What `animateStats` reads from the window and from the about section at a scroll event. -/
structure ScrollEvent where
  scrollY : Int
  innerHeight : Int
  offsetTop : Int
  offsetHeight : Int
  deriving DecidableEq, Repr

/-- The latch of `initStatsCounter` and the intervals started so far. -/
structure StatsCounter where
  hasAnimated : Bool
  ramps : List Ramp
  deriving DecidableEq

/-- The state `initStatsCounter` leaves: latch unset, nothing started. -/
def initStatsCounter : StatsCounter := { hasAnimated := false, ramps := [] }

/-- The condition under which `animateStats` starts the ramps. -/
def inTriggerRange (ev : ScrollEvent) : Bool :=
  let aboutPosition := ev.offsetTop
  let aboutHeight := ev.offsetHeight
  let scrollPosition := ev.scrollY + ev.innerHeight
  decide (scrollPosition > aboutPosition) && decide (ev.scrollY < aboutPosition + aboutHeight)

/-- The scroll listener `animateStats`; `statsNumbers` lists the parsed `data-count` of the
`.stat-number` elements. -/
def animateStats (statsNumbers : List Int) (ev : ScrollEvent) (st : StatsCounter) :
    StatsCounter :=
  if st.hasAnimated then st
  else if inTriggerRange ev then
    { hasAnimated := true
      ramps := st.ramps ++ statsNumbers.enum.map (fun it => startRamp it.1 it.2) }
  else st

/-- What happens to the stats counter: a scroll event, or a firing of the interval with the
given position among the started ones. -/
inductive StatsStep
  | scroll (ev : ScrollEvent)
  | fire (k : Nat)

/-- One step of the stats counter. -/
def statsStep (statsNumbers : List Int) (st : StatsCounter) : StatsStep → StatsCounter
  | .scroll ev => animateStats statsNumbers ev st
  | .fire k => { st with ramps := st.ramps.modify rampTick k }

/-- The steps one after the other. -/
def statsRun (statsNumbers : List Int) (st : StatsCounter) (steps : List StatsStep) :
    StatsCounter :=
  steps.foldl (statsStep statsNumbers) st

/-- Some scroll event among the steps is in the trigger range. -/
def someTrigger (steps : List StatsStep) : Bool :=
  steps.any (fun s => match s with
    | .scroll ev => inTriggerRange ev
    | .fire _ => false)

/-- How many intervals have been started for the stat element with the given index. -/
def startedFor (st : StatsCounter) (stat : Nat) : Nat :=
  (st.ramps.map (fun r => r.stat)).count stat

/-- The stat elements with a started interval: all of them, once each, when the latch is set,
none when it is not. -/
def LatchInv (statsNumbers : List Int) (st : StatsCounter) : Prop :=
  st.ramps.map (fun r => r.stat) =
    if st.hasAnimated then List.range statsNumbers.length else []

/-! ## Storage wrappers (`StorageUtils` of `utils.js`)

A call that may throw returns `Except`: `.error e` is the exception `e` thrown. The store and
`JSON` belong to the platform and are parameters. -/

/-- The platform's `localStorage` over a store state `σ`; every operation may throw. `getItem`
gives `none` for `null`. -/
structure Storage (σ ε : Type) where
  setItem : σ → JSString → JSString → Except ε σ
  getItem : σ → JSString → Except ε (Option JSString)
  removeItem : σ → JSString → Except ε σ
  clear : σ → Except ε σ

/-- The platform's `JSON` over the values `ν`: `stringify` gives the text that `setItem`
stores (the result of `JSON.stringify` turned into a string), and both may throw. -/
structure Json (ν ε : Type) where
  stringify : ν → Except ε JSString
  parse : JSString → Except ε ν

/-- The store and what `console.warn` has been given. -/
structure StorageEnv (σ ε : Type) where
  store : σ
  warnings : List (JSString × ε)

/-- The call `console.warn(message, error)`. -/
def consoleWarn {σ ε : Type} (message : JSString) (error : ε) (env : StorageEnv σ ε) :
    StorageEnv σ ε :=
  { env with warnings := env.warnings ++ [(message, error)] }

/-- `StorageUtils.setLocal(key, value)`. -/
def setLocal {σ ε ν : Type} (S : Storage σ ε) (J : Json ν ε) (key : JSString) (value : ν)
    (env : StorageEnv σ ε) : Except ε (Bool × StorageEnv σ ε) :=
  tryCatch
    (do
      let text ← J.stringify value
      let store ← S.setItem env.store key text
      pure (true, { env with store := store }))
    (fun error => pure (false, consoleWarn (lit "Could not save to localStorage:") error env))

/-- `StorageUtils.getLocal(key, defaultValue)`: the empty string is falsy, like `null`. -/
def getLocal {σ ε ν : Type} (S : Storage σ ε) (J : Json ν ε) (key : JSString)
    (defaultValue : ν) (env : StorageEnv σ ε) : Except ε (ν × StorageEnv σ ε) :=
  tryCatch
    (do
      let item ← S.getItem env.store key
      match item with
      | some text =>
        if text.isEmpty then pure (defaultValue, env)
        else do
          let value ← J.parse text
          pure (value, env)
      | none => pure (defaultValue, env))
    (fun error =>
      pure (defaultValue, consoleWarn (lit "Could not read from localStorage:") error env))

/-- `StorageUtils.removeLocal(key)`. -/
def removeLocal {σ ε : Type} (S : Storage σ ε) (key : JSString) (env : StorageEnv σ ε) :
    Except ε (StorageEnv σ ε) :=
  tryCatch
    (do
      let store ← S.removeItem env.store key
      pure { env with store := store })
    (fun error => pure (consoleWarn (lit "Could not remove from localStorage:") error env))

/-- `StorageUtils.clearLocal()`. -/
def clearLocal {σ ε : Type} (S : Storage σ ε) (env : StorageEnv σ ε) :
    Except ε (StorageEnv σ ε) :=
  tryCatch
    (do
      let store ← S.clear env.store
      pure { env with store := store })
    (fun error => pure (consoleWarn (lit "Could not clear localStorage:") error env))

/-- A store for the examples: an association list that refuses every write once it holds two
items and every read when it is locked. -/
def sampleStorage : Storage (Bool × List (JSString × JSString)) JSString where
  setItem := fun s key text =>
    if s.2.length ≥ 2 then .error (lit "QuotaExceededError")
    else .ok (s.1, s.2.filter (fun e => decide (e.1 ≠ key)) ++ [(key, text)])
  getItem := fun s key =>
    if s.1 then .error (lit "SecurityError")
    else .ok ((s.2.find? (fun e => decide (e.1 = key))).map (fun e => e.2))
  removeItem := fun s key =>
    if s.1 then .error (lit "SecurityError")
    else .ok (s.1, s.2.filter (fun e => decide (e.1 ≠ key)))
  clear := fun s => if s.1 then .error (lit "SecurityError") else .ok (s.1, [])

/-- A `JSON` for the examples, over the values `true` and `false` only. -/
def sampleJson : Json Bool JSString where
  stringify := fun b => .ok (if b then lit "true" else lit "false")
  parse := fun text =>
    if text = lit "true" then .ok true
    else if text = lit "false" then .ok false
    else .error (lit "SyntaxError")

/-! ## Scroll animations (`ScrollAnimations.animateElement` of `animations.js`) -/

/-- What `animateElement` reads and writes of an element: the three `data-aos` attributes
(`none` when missing), three style properties and the class list. -/
structure AosElement where
  dataAos : Option JSString
  dataAosDelay : Option JSString
  dataAosDuration : Option JSString
  transition : JSString
  opacity : JSString
  transform : JSString
  classList : List JSString
  deriving DecidableEq, Repr

/-- The value of `getAttribute(name) || fallback`: the attribute when it is there and not the
empty string, the number otherwise. -/
inductive AttrOrNumber
  | attr (text : JSString)
  | number (n : Nat)
  deriving DecidableEq, Repr

/-- The expression `getAttribute(name) || fallback`. -/
def orNumber (value : Option JSString) (fallback : Nat) : AttrOrNumber :=
  match value with
  | some text => if text.isEmpty then .number fallback else .attr text
  | none => .number fallback

/-- The text a template literal gives for such a value. -/
def AttrOrNumber.toJSString : AttrOrNumber → JSString
  | .attr text => text
  | .number n => (Nat.toDigits 10 n).map Char.toNat

/-- The timeout `animateElement` sets: its delay and what its callback closes over. -/
structure AosTimeout where
  animationType : Option JSString
  delay : AttrOrNumber
  duration : AttrOrNumber
  deriving DecidableEq, Repr

/-- `animateElement(element)` up to and including the call of `setTimeout`. -/
def animateElement (element : AosElement) : AosTimeout :=
  let animationType := element.dataAos
  let delay := orNumber element.dataAosDelay 0
  let duration := orNumber element.dataAosDuration 600
  { animationType := animationType, delay := delay, duration := duration }

/-- `classList.add(name)`. -/
def classListAdd (classList : List JSString) (name : JSString) : List JSString :=
  if name ∈ classList then classList else classList ++ [name]

/-- The callback of the timeout, run when the delay has elapsed. -/
def aosCallback (t : AosTimeout) (element : AosElement) : AosElement :=
  let element :=
    { element with
      transition := lit "all " ++ t.duration.toJSString ++ lit "ms cubic-bezier(0.4, 0, 0.2, 1)" }
  let element :=
    if t.animationType = some (lit "fade-up") then
      { element with opacity := lit "1", transform := lit "translateY(0)" }
    else if t.animationType = some (lit "fade-down") then
      { element with opacity := lit "1", transform := lit "translateY(0)" }
    else if t.animationType = some (lit "fade-left") then
      { element with opacity := lit "1", transform := lit "translateX(0)" }
    else if t.animationType = some (lit "fade-right") then
      { element with opacity := lit "1", transform := lit "translateX(0)" }
    else if t.animationType = some (lit "zoom-in") then
      { element with opacity := lit "1", transform := lit "scale(1)" }
    else if t.animationType = some (lit "flip-left") then
      { element with opacity := lit "1", transform := lit "rotateY(0)" }
    else if t.animationType = some (lit "slide-up") then
      { element with opacity := lit "1", transform := lit "translateY(0)" }
    else
      { element with opacity := lit "1", transform := lit "translateY(0)" }
  { element with classList := classListAdd element.classList (lit "aos-animate") }

/-- The element once the timeout `animateElement` sets for it has fired. -/
def animated (element : AosElement) : AosElement :=
  aosCallback (animateElement element) element

/-- The animation kinds `animateElement` has a case for. -/
def recognisedKinds : List JSString :=
  [lit "fade-up", lit "fade-down", lit "fade-left", lit "fade-right", lit "zoom-in",
    lit "flip-left", lit "slide-up"]

/-- The transforms that leave an element where it is. -/
def identityTransforms : List JSString :=
  [lit "translateY(0)", lit "translateX(0)", lit "scale(1)", lit "rotateY(0)"]

/-- An element of the examples, hidden and shifted as the style sheet leaves it. -/
def sampleElement (kind delay duration : Option JSString) : AosElement :=
  { dataAos := kind, dataAosDelay := delay, dataAosDuration := duration, transition := [],
    opacity := lit "0", transform := lit "translateY(30px)", classList := [lit "card"] }

/-! ## The intersection observer of `ScrollAnimations` (`animations.js`) -/

/-- An entry handed to the observer callback: the index of the observed element and whether
it intersects. -/
structure ObserverEntry where
  target : Nat
  isIntersecting : Bool
  deriving DecidableEq, Repr

/-- The elements with a `data-aos` attribute, in document order, and the timeouts that
`animateElement` has set and that have not fired yet, each with the index of its element. -/
structure AosPage where
  elements : List AosElement
  timeouts : List (Nat × AosTimeout)
  deriving DecidableEq, Repr

/-- The callback `setupIntersectionObserver` gives the observer: `animateElement` is called
for the target of every intersecting entry. -/
def observerCallback (entries : List ObserverEntry) (p : AosPage) : AosPage :=
  entries.foldl
    (fun p entry =>
      if entry.isIntersecting then
        match p.elements.get? entry.target with
        | some element => { p with timeouts := p.timeouts ++ [(entry.target, animateElement element)] }
        | none => p
      else p)
    p

/-- The pending timeout at position `k` fires: its callback runs on its element. -/
def fireTimeout (k : Nat) (p : AosPage) : AosPage :=
  match p.timeouts.get? k with
  | some (target, t) =>
    { elements := p.elements.modify (aosCallback t) target
      timeouts := p.timeouts.eraseIdx k }
  | none => p

/-! ## Number formatting (`NumberUtils.formatWithCommas` of `utils.js`) -/

/-- `Number.MAX_SAFE_INTEGER`: up to here every integer is a Number of its own. -/
def maxSafeInteger : Nat := 9007199254740991

/-- The decimal digits of a natural number. -/
def decimalDigits (n : Nat) : JSString := (Nat.toDigits 10 n).map Char.toNat

/-- `num.toString()` for a non-negative integer. A safe integer prints as its decimal digits.
What a larger Number prints is fixed by the platform's shortest-digits conversion and is the
parameter `beyond`: digits padded with zeros below `1e21`, exponent form from `1e21` on. -/
def numberToString (beyond : Nat → JSString) (n : Nat) : JSString :=
  if n ≤ maxSafeInteger then decimalDigits n else beyond n

/-- The class `\d`. -/
def isDigit (c : Nat) : Bool := 0x30 ≤ c && c ≤ 0x39

/-- The code unit before or after a position is a word character; there is none at the ends
of the string. -/
def isWordAt (c : Option Nat) : Bool :=
  match c with
  | some c => isWordChar c
  | none => false

/-- The assertion `\B` between two neighbours: not a word boundary. -/
def notWordBoundary (before after : Option Nat) : Bool :=
  isWordAt before == isWordAt after

/-- The assertion `(?!\d)` at the start of the rest of the input. -/
def notDigitNext : JSString → Bool
  | [] => true
  | c :: _ => !isDigit c

/-- The lookahead `(?=(\d{3})+(?!\d))` at the start of the rest of the input: one group of
three digits, then either more groups or the end of the digits. -/
def groupsOfThreeAhead : JSString → Bool
  | a :: b :: c :: rest =>
    isDigit a && isDigit b && isDigit c && (groupsOfThreeAhead rest || notDigitNext rest)
  | _ => false

/-- `replace(/\B(?=(\d{3})+(?!\d))/g, ",")`: the pattern matches the empty string, so every
position of the input is tried once, left to right, and a comma goes in where it matches.
`before` is the code unit left of the current position. -/
def insertCommas : Option Nat → JSString → JSString
  | before, [] =>
    if notWordBoundary before none && groupsOfThreeAhead [] then lit "," else []
  | before, c :: rest =>
    (if notWordBoundary before (some c) && groupsOfThreeAhead (c :: rest) then lit "," else [])
      ++ c :: insertCommas (some c) rest

/-- `NumberUtils.formatWithCommas(num)` for a non-negative integer. -/
def formatWithCommas (beyond : Nat → JSString) (num : Nat) : JSString :=
  insertCommas none (numberToString beyond num)

/-- A sample of what the platform prints beyond the safe integers: `1e21` prints as `1e+21`;
the other values do not matter here and print as their digits. -/
def sampleBeyond (n : Nat) : JSString :=
  if n = 10 ^ 21 then lit "1e+21" else decimalDigits n

/-- A non-empty string of decimal digits. -/
def IsDigitString (s : JSString) : Prop :=
  s ≠ [] ∧ ∀ c ∈ s, isDigit c = true

/-- Cuts a string into pieces of three code units; what is left at the end is a short last
piece. -/
def chunksOfThree : JSString → List JSString
  | a :: b :: c :: rest => [a, b, c] :: chunksOfThree rest
  | [] => []
  | short => [short]

/-- The groups of a digit string: the first takes what a multiple of three leaves over, one to
three digits, every other group takes three. -/
def digitGroups (digits : JSString) : List JSString :=
  digits.take ((digits.length - 1) % 3 + 1) ::
    chunksOfThree (digits.drop ((digits.length - 1) % 3 + 1))

/-! ## Floating elements (`FloatingElements.startAnimation` of `animations.js`)

Positions and speeds are modelled exactly, with rational numbers. -/

/-- `Math.max` of two fractional numbers. -/
def ratMax (a b : ℚ) : ℚ := if a < b then b else a

/-- `Math.min` of two fractional numbers. -/
def ratMin (a b : ℚ) : ℚ := if b < a then b else a

/-- An entry of `this.elements`, with the `left` and `top` of its element in percent. -/
structure FloatingItem where
  x : ℚ
  y : ℚ
  speedX : ℚ
  speedY : ℚ
  left : ℚ
  top : ℚ
  deriving DecidableEq

/-- What one call of `animate` does to one item. -/
def floatStep (item : FloatingItem) : FloatingItem :=
  let item := { item with x := item.x + item.speedX }
  let item := { item with y := item.y + item.speedY }
  let item := if item.x ≤ 0 ∨ item.x ≥ 100 then { item with speedX := item.speedX * -1 } else item
  let item := if item.y ≤ 0 ∨ item.y ≥ 100 then { item with speedY := item.speedY * -1 } else item
  let item := { item with x := ratMax 0 (ratMin 100 item.x) }
  let item := { item with y := ratMax 0 (ratMin 100 item.y) }
  let item := { item with left := item.x }
  { item with top := item.y }

/-- One call of `animate`: every item takes its step. -/
def animateFrame (elements : List FloatingItem) : List FloatingItem :=
  elements.map floatStep

/-- The given number of animation frames. -/
def animateFrames : Nat → List FloatingItem → List FloatingItem
  | 0, elements => elements
  | n + 1, elements => animateFrames n (animateFrame elements)

/-! ## The phrase list of the typewriter -/

/-- The call `split(",")` on the `data-text` attribute. -/
def splitOnComma (text : JSString) : List JSString :=
  text.splitOn 0x2C

/-! ## The first character of a string, and a case table for Deseret letters -/

/-- A code unit that starts a surrogate pair. -/
def isHighSurrogate (c : Nat) : Bool := decide (0xD800 ≤ c ∧ c ≤ 0xDBFF)

/-- A code unit that ends a surrogate pair. -/
def isLowSurrogate (c : Nat) : Bool := decide (0xDC00 ≤ c ∧ c ≤ 0xDFFF)

/-- The number of code units of the first character (code point) of a string: two for a
surrogate pair, one otherwise, none for the empty string. -/
def firstCharLength : JSString → Nat
  | [] => 0
  | [_] => 1
  | a :: b :: _ => if isHighSurrogate a && isLowSurrogate b then 2 else 1

/-- What the specification asks of `capitalize`: the upper-casing of the first character
followed by the lower-casing of the rest, and `""` for `""`. -/
def capitalizeFirstChar (upper lower : CaseTable) (str : JSString) : JSString :=
  if str.isEmpty then lit ""
  else toUpperCase upper (str.take (firstCharLength str)) ++
    toLowerCase lower (str.drop (firstCharLength str))

/-- The upper-case table on the Deseret letters: the small letters U+10428 to U+1044F, whose
second code unit is `DC28` to `DC4F` after `D801`, become the capitals U+10400 to U+10427;
every other code unit stays, a surrogate without its partner too. -/
def deseretUpper : CaseTable := fun s i =>
  match s.get? i with
  | some c =>
    if 0xDC28 ≤ c ∧ c ≤ 0xDC4F ∧ 0 < i ∧ s.get? (i - 1) = some 0xD801 then [c - 0x28] else [c]
  | none => []

/-- The lower-case table on the Deseret letters: the capitals U+10400 to U+10427 become the
small letters U+10428 to U+1044F; every other code unit stays. -/
def deseretLower : CaseTable := fun s i =>
  match s.get? i with
  | some c =>
    if 0xDC00 ≤ c ∧ c ≤ 0xDC27 ∧ 0 < i ∧ s.get? (i - 1) = some 0xD801 then [c + 0x28] else [c]
  | none => []

/-! ## The typewriter with the character index as a Number

`charIndex` holds a whole Number, so `charIndex++` and `charIndex--` store the double nearest
to the exact result. Below `2^53` that is the exact result, which is why `type` above computes
with integers; from `2^53` on it is not. -/

/-- The double nearest to an integer of size below `2^1024`, which is an integer again. -/
def nearestNumber (z : Int) : Int :=
  if z < 0 then -(roundNearestEven z.natAbs 0 1 : Int) else (roundNearestEven z.natAbs 0 1 : Int)

/-- One call of `type()`, with the arithmetic of Numbers on `charIndex`. -/
def typeNumber (texts : List JSString) (tw : Typewriter) : Option Typewriter :=
  match texts.get? tw.textIndex with
  | none => none
  | some currentText =>
    let tw :=
      if tw.isDeleting then
        { tw with
          textContent := substring currentText 0 (nearestNumber (tw.charIndex - 1))
          charIndex := nearestNumber (tw.charIndex - 1)
          typeSpeed := 50 }
      else
        { tw with
          textContent := substring currentText 0 (nearestNumber (tw.charIndex + 1))
          charIndex := nearestNumber (tw.charIndex + 1)
          typeSpeed := 100 }
    let tw :=
      if !tw.isDeleting && tw.charIndex == (currentText.length : Int) then
        { tw with isDeleting := true, typeSpeed := 1500 }
      else if tw.isDeleting && tw.charIndex == 0 then
        { tw with
          isDeleting := false
          textIndex := (tw.textIndex + 1) % texts.length
          typeSpeed := 500 }
      else tw
    some tw

/-- The state after the given number of calls of `type`, with the arithmetic of Numbers. -/
def ticksNumber (texts : List JSString) : Nat → Typewriter → Option Typewriter
  | 0, tw => some tw
  | n + 1, tw => (typeNumber texts tw).bind (ticksNumber texts n)

/-- The texts shown after each of the given number of calls of `type`, with the arithmetic of
Numbers. -/
def displayedNumber (texts : List JSString) : Nat → Typewriter → List JSString
  | 0, _ => []
  | n + 1, tw =>
    match typeNumber texts tw with
    | none => []
    | some next => next.textContent :: displayedNumber texts n next

/-! ## The hover handlers of `ScrollAnimations` (`animations.js`)

They run on the cards, which may carry a `data-aos` attribute as well. Of the style properties
they set, `transform` and `transition` are the ones `animateElement` writes too; `boxShadow`
is no part of `AosElement`. -/

/-- `addHoverEffect(element)`, on the properties of `AosElement`. -/
def addHoverEffect (element : AosElement) : AosElement :=
  { element with
    transform := lit "translateY(-10px) scale(1.02)"
    transition := lit "all 0.3s cubic-bezier(0.4, 0, 0.2, 1)" }

/-- `removeHoverEffect(element)`, on the properties of `AosElement`. -/
def removeHoverEffect (element : AosElement) : AosElement :=
  { element with transform := lit "translateY(0) scale(1)" }

/-! ## The email pattern -/

theorem reClassPlus_iff (p : Nat → Bool) (k : JSString → Bool) (s : JSString) :
    reClassPlus p k s = true ↔
      ∃ a b : JSString, s = a ++ b ∧ a ≠ [] ∧ (∀ c ∈ a, p c = true) ∧ k b = true := by
  induction s with
  | nil =>
    simp only [reClassPlus, Bool.false_eq_true, false_iff]
    rintro ⟨a, b, h, ha, -, -⟩
    cases a with
    | nil => exact ha rfl
    | cons x xs => simp at h
  | cons c cs ih =>
    simp only [reClassPlus, Bool.and_eq_true, Bool.or_eq_true, ih]
    constructor
    · rintro ⟨hc, ⟨a, b, rfl, -, hall, hk⟩ | hk⟩
      · refine ⟨c :: a, b, rfl, by simp, ?_, hk⟩
        intro x hx
        rcases List.mem_cons.mp hx with rfl | hx
        · exact hc
        · exact hall x hx
      · exact ⟨[c], cs, rfl, by simp, by simpa using hc, hk⟩
    · rintro ⟨a, b, h, ha, hall, hk⟩
      cases a with
      | nil => exact absurd rfl ha
      | cons x xs =>
        simp only [List.cons_append, List.cons.injEq] at h
        obtain ⟨rfl, rfl⟩ := h
        refine ⟨hall c (by simp), ?_⟩
        cases xs with
        | nil => exact Or.inr (by simpa using hk)
        | cons y ys =>
          exact Or.inl ⟨y :: ys, b, rfl, by simp,
            fun z hz => hall z (List.mem_cons_of_mem _ hz), hk⟩

theorem reChar_iff (a : Nat) (k : JSString → Bool) (s : JSString) :
    reChar a k s = true ↔ ∃ b : JSString, s = a :: b ∧ k b = true := by
  cases s with
  | nil => simp [reChar]
  | cons c cs =>
    simp only [reChar, Bool.and_eq_true, beq_iff_eq, List.cons.injEq]
    constructor
    · rintro ⟨rfl, hk⟩
      exact ⟨cs, ⟨rfl, rfl⟩, hk⟩
    · rintro ⟨b, ⟨rfl, rfl⟩, hk⟩
      exact ⟨rfl, hk⟩

theorem reEnd_iff (s : JSString) : reEnd s = true ↔ s = [] := by
  cases s <;> simp [reEnd]

theorem notSpaceAt_iff (c : Nat) :
    notSpaceAt c = true ↔ isWhiteSpace c = false ∧ c ≠ 0x40 := by
  simp [notSpaceAt]

theorem isAddressPart_iff (x : JSString) :
    IsAddressPart x ↔ x ≠ [] ∧ ∀ c ∈ x, notSpaceAt c = true := by
  simp only [IsAddressPart, notSpaceAt_iff]

/-- C5: `isValidEmail` accepts exactly the strings of the form `local@domain.tld`. -/
theorem isValidEmail_iff_pattern (s : JSString) :
    (isValidEmail s = true ↔ IsLocalAtDomainDotTld s) ∧
      (isValidEmail s = false ↔ ¬ IsLocalAtDomainDotTld s) := by
  have key : isValidEmail s = true ↔ IsLocalAtDomainDotTld s := by
    unfold isValidEmail IsLocalAtDomainDotTld
    simp only [reClassPlus_iff, reChar_iff, reEnd_iff, isAddressPart_iff]
    constructor
    · rintro ⟨l, r1, rfl, hl, hl', r2, rfl, d, r3, rfl, hd, hd', r4, rfl, t, r5, rfl, ht, ht', rfl⟩
      exact ⟨l, d, t, by simp [lit], ⟨hl, hl'⟩, ⟨hd, hd'⟩, ⟨ht, by simpa using ht'⟩⟩
    · rintro ⟨l, d, t, rfl, ⟨hl, hl'⟩, ⟨hd, hd'⟩, ⟨ht, ht'⟩⟩
      exact ⟨l, 0x40 :: (d ++ 0x2E :: t), by simp [lit], hl, hl', d ++ 0x2E :: t, rfl,
        d, 0x2E :: t, rfl, hd, hd', t, rfl, t, [], by simp, ht, ht', rfl⟩
  refine ⟨key, ?_⟩
  rw [← key]
  cases isValidEmail s <;> simp

/-! ## Form validation -/

theorem formErrors_eq_violations (data : FormData) : formErrors data = violations data := by
  unfold formErrors violations requiredEntry emailEntry
  simp only [List.isEmpty_iff, List.nil_append]
  by_cases h1 : trim data.name = [] <;> by_cases h2 : trim data.email = [] <;>
    by_cases h3 : trim data.subject = [] <;> by_cases h4 : trim data.message = [] <;>
    cases h5 : isValidEmail data.email <;> simp [h1, h2, h3, h4, h5, lit]

theorem violations_eq_nil_iff (data : FormData) : violations data = [] ↔ AllRulesHold data := by
  unfold violations requiredEntry emailEntry AllRulesHold
  by_cases h1 : trim data.name = [] <;> by_cases h2 : trim data.email = [] <;>
    by_cases h3 : trim data.subject = [] <;> by_cases h4 : trim data.message = [] <;>
    cases h5 : isValidEmail data.email <;> simp [h1, h2, h3, h4, h5]

theorem validateForm_eq (data : FormData) (p : Page) :
    validateForm data p =
      if violations data = [] then (true, p)
      else (false, showNotification (join (lit ", ") (violations data)) .error p) := by
  unfold validateForm
  rw [formErrors_eq_violations]
  cases h : violations data <;> simp

/-- C1: `validateForm` returns true exactly when the four fields are non-empty after trimming
and the email satisfies `isValidEmail`, and false for every other record. -/
theorem validateForm_true_iff (data : FormData) (p : Page) :
    ((validateForm data p).1 = true ↔
        trim data.name ≠ [] ∧ trim data.email ≠ [] ∧ trim data.subject ≠ [] ∧
          trim data.message ≠ [] ∧ isValidEmail data.email = true) ∧
      ((validateForm data p).1 = false ↔
        ¬ (trim data.name ≠ [] ∧ trim data.email ≠ [] ∧ trim data.subject ≠ [] ∧
          trim data.message ≠ [] ∧ isValidEmail data.email = true)) := by
  have h := violations_eq_nil_iff data
  unfold AllRulesHold at h
  rw [validateForm_eq, ← h]
  by_cases hv : violations data = [] <;> simp [hv]

/-- C2: a record that breaks a rule gets one error notification whose text is the violations
in field order joined by a comma and a blank, and the result is false; the record with an empty
name and the email `bad` gets the entries for the name and for the invalid email. -/
theorem validateForm_reports_all_violations (p : Page) :
    (∀ data : FormData, ¬ AllRulesHold data →
      violations data ≠ [] ∧
      validateForm data p =
        (false, showNotification (join (lit ", ") (violations data)) .error p) ∧
      ∃ n : Notification,
        (validateForm data p).2.notifications = p.notifications.drop 1 ++ [n] ∧
        n.type = .error ∧ n.textContent = join (lit ", ") (violations data)) ∧
    (violations ⟨lit "", lit "bad", lit "hi", lit "hi"⟩ =
        [lit "Name is required", lit "Please enter a valid email"] ∧
      validateForm ⟨lit "", lit "bad", lit "hi", lit "hi"⟩ p =
        (false,
          showNotification (lit "Name is required, Please enter a valid email") .error p)) := by
  constructor
  · intro data h
    have hv : violations data ≠ [] := fun hv => h ((violations_eq_nil_iff data).mp hv)
    have he : validateForm data p =
        (false, showNotification (join (lit ", ") (violations data)) .error p) := by
      rw [validateForm_eq, if_neg hv]
    refine ⟨hv, he, ⟨p.nextId, join (lit ", ") (violations data), .error, backgroundOf .error,
      lit "translateX(100%)"⟩, ?_, rfl, rfl⟩
    rw [he]
    rfl
  · refine ⟨by decide, ?_⟩
    rw [validateForm_eq, if_neg (by decide)]
    rfl

theorem validateForm_reports_all_violations_witness :
    ¬ AllRulesHold ⟨lit "", lit "bad", lit "hi", lit "hi"⟩ ∧
      (validateForm ⟨lit "", lit "bad", lit "hi", lit "hi"⟩
          (samplePage ⟨lit "", lit "bad", lit "hi", lit "hi"⟩)).2.notifications =
        [⟨0, lit "Name is required, Please enter a valid email", .error, lit "#ef4444",
          lit "translateX(100%)"⟩] := by
  have hne : ¬ AllRulesHold ⟨lit "", lit "bad", lit "hi", lit "hi"⟩ :=
    fun h => h.1 (by decide)
  refine ⟨hne, ?_⟩
  rw [((validateForm_reports_all_violations
    (samplePage ⟨lit "", lit "bad", lit "hi", lit "hi"⟩)).1 _ hne).2.1]
  decide

/-! ## The submit handler -/

theorem submitHandler_of_invalid (e : SubmitEvent) (p : Page)
    (h : (validateForm p.fields p).1 = false) :
    submitHandler e p = (⟨true⟩, (validateForm p.fields p).2) := by
  simp only [submitHandler]
  rcases hv : validateForm p.fields p with ⟨ok, q⟩
  rw [hv] at h
  simp only at h
  subst h
  rfl

theorem submitHandler_of_valid (e : SubmitEvent) (p : Page)
    (h : (validateForm p.fields p).1 = true) :
    submitHandler e p =
      (⟨true⟩, { p with
        submitBtn := ⟨lit "Sending...", true⟩
        timers := p.timers ++ [⟨.sendComplete p.submitBtn.textContent, 2000⟩] }) := by
  have hv : violations p.fields = [] := by
    by_contra hne
    rw [validateForm_eq, if_neg hne] at h
    exact Bool.false_ne_true h
  simp only [submitHandler]
  rw [validateForm_eq, if_pos hv]
  rfl

/-- C3: when validation fails the handler leaves the button, the fields and the pending send
timers as they were; what it does to the page is the error notification and nothing else. -/
theorem submitHandler_invalid_aborts (e : SubmitEvent) (p : Page)
    (h : (validateForm p.fields p).1 = false) :
    (submitHandler e p).2.submitBtn = p.submitBtn ∧
      (submitHandler e p).2.fields = p.fields ∧
      (submitHandler e p).2.defaults = p.defaults ∧
      (submitHandler e p).2.timers.filter isSendTimer = p.timers.filter isSendTimer ∧
      (submitHandler e p).2 =
        showNotification (join (lit ", ") (formErrors p.fields)) .error p := by
  have hv : violations p.fields ≠ [] := by
    intro hv
    rw [validateForm_eq, if_pos hv] at h
    exact Bool.noConfusion h
  have hp : (submitHandler e p).2 =
      showNotification (join (lit ", ") (formErrors p.fields)) .error p := by
    rw [submitHandler_of_invalid e p h, validateForm_eq, if_neg hv, formErrors_eq_violations]
  rw [hp]
  refine ⟨rfl, rfl, rfl, ?_, rfl⟩
  simp [showNotification, List.filter_append, isSendTimer]

theorem submitHandler_invalid_aborts_witness :
    (validateForm ⟨lit "", lit "bad", lit "hi", lit "hi"⟩
        (samplePage ⟨lit "", lit "bad", lit "hi", lit "hi"⟩)).1 = false ∧
      (submitHandler ⟨false⟩ (samplePage ⟨lit "", lit "bad", lit "hi", lit "hi"⟩)).2.submitBtn =
        ⟨lit "Send Message", false⟩ ∧
      (submitHandler ⟨false⟩ (samplePage ⟨lit "", lit "bad", lit "hi", lit "hi"⟩)).2.timers =
        [⟨.slideIn 0, 100⟩, ⟨.slideOut 0, 5000⟩] := by
  have h := submitHandler_invalid_aborts ⟨false⟩
    (samplePage ⟨lit "", lit "bad", lit "hi", lit "hi"⟩) (by decide)
  exact ⟨by decide, h.1, by decide⟩

theorem fire_keeps (send t : Timer) (hs : isSendTimer send = true)
    (ht : isSendTimer t = false) (q : Page) :
    (fire t q).submitBtn = q.submitBtn ∧ (fire t q).defaults = q.defaults ∧
      (send ∈ q.timers → send ∈ (fire t q).timers) := by
  have hne : send ≠ t := by
    rintro rfl
    rw [hs] at ht
    exact Bool.noConfusion ht
  unfold fire
  by_cases hmem : t ∈ q.timers
  · rw [if_pos hmem]
    obtain ⟨a, d⟩ := t
    cases a with
    | slideIn id =>
      exact ⟨rfl, rfl, fun h => (List.mem_erase_of_ne hne).mpr h⟩
    | slideOut id =>
      exact ⟨rfl, rfl, fun h => List.mem_append_left _ ((List.mem_erase_of_ne hne).mpr h)⟩
    | detach id =>
      exact ⟨rfl, rfl, fun h => (List.mem_erase_of_ne hne).mpr h⟩
    | sendComplete o => exact Bool.noConfusion ht
  · rw [if_neg hmem]
    exact ⟨rfl, rfl, id⟩

theorem fireAll_keeps (send : Timer) (hs : isSendTimer send = true) (ts : List Timer)
    (hts : ∀ t ∈ ts, isSendTimer t = false) (q : Page) (hq : send ∈ q.timers) :
    (fireAll ts q).submitBtn = q.submitBtn ∧ (fireAll ts q).defaults = q.defaults ∧
      send ∈ (fireAll ts q).timers := by
  induction ts generalizing q with
  | nil => exact ⟨rfl, rfl, hq⟩
  | cons t ts ih =>
    obtain ⟨h1, h2, h3⟩ := fire_keeps send t hs (hts t (by simp)) q
    obtain ⟨i1, i2, i3⟩ := ih (fun x hx => hts x (List.mem_cons_of_mem _ hx)) (fire t q) (h3 hq)
    exact ⟨i1.trans h1, i2.trans h2, i3⟩

/-- C4: when validation passes the handler disables the button, labels it `Sending...` and
schedules the one delayed step; the button stays so while other timers fire, and the delayed
step shows the success notification, resets the fields, restores the label and enables the
button again. -/
theorem submitHandler_valid_sends (e : SubmitEvent) (p : Page)
    (h : (validateForm p.fields p).1 = true)
    (between : List Timer) (hb : ∀ t ∈ between, isSendTimer t = false) :
    (submitHandler e p).2.submitBtn = ⟨lit "Sending...", true⟩ ∧
      (submitHandler e p).2.timers =
        p.timers ++ [⟨.sendComplete p.submitBtn.textContent, 2000⟩] ∧
      (submitHandler e p).2.fields = p.fields ∧
      (submitHandler e p).2.notifications = p.notifications ∧
      (fireAll between (submitHandler e p).2).submitBtn = ⟨lit "Sending...", true⟩ ∧
      (fire ⟨.sendComplete p.submitBtn.textContent, 2000⟩
          (fireAll between (submitHandler e p).2)).submitBtn =
        ⟨p.submitBtn.textContent, false⟩ ∧
      (fire ⟨.sendComplete p.submitBtn.textContent, 2000⟩
          (fireAll between (submitHandler e p).2)).fields = p.defaults ∧
      ∃ n : Notification,
        (fire ⟨.sendComplete p.submitBtn.textContent, 2000⟩
            (fireAll between (submitHandler e p).2)).notifications =
          (fireAll between (submitHandler e p).2).notifications.drop 1 ++ [n] ∧
        n.textContent = lit "Message sent successfully!" ∧ n.type = .success := by
  rw [submitHandler_of_valid e p h]
  obtain ⟨k1, k2, k3⟩ := fireAll_keeps ⟨.sendComplete p.submitBtn.textContent, 2000⟩ rfl
    between hb
    { p with
      submitBtn := ⟨lit "Sending...", true⟩
      timers := p.timers ++ [⟨.sendComplete p.submitBtn.textContent, 2000⟩] } (by simp)
  refine ⟨rfl, rfl, rfl, rfl, k1, ?_, ?_, ?_⟩
  · unfold fire
    rw [if_pos k3]
    rfl
  · unfold fire
    rw [if_pos k3]
    exact k2
  · unfold fire
    rw [if_pos k3]
    exact ⟨⟨_, lit "Message sent successfully!", .success, _, _⟩, rfl, rfl, rfl⟩

theorem submitHandler_valid_sends_witness :
    (validateForm ⟨lit "Jo", lit "jo@x.com", lit "Hi", lit "Hello"⟩
        (samplePage ⟨lit "Jo", lit "jo@x.com", lit "Hi", lit "Hello"⟩)).1 = true ∧
      (submitHandler ⟨false⟩
          (samplePage ⟨lit "Jo", lit "jo@x.com", lit "Hi", lit "Hello"⟩)).2.submitBtn =
        ⟨lit "Sending...", true⟩ ∧
      (fire ⟨.sendComplete (lit "Send Message"), 2000⟩
          (fireAll [] (submitHandler ⟨false⟩
            (samplePage ⟨lit "Jo", lit "jo@x.com", lit "Hi", lit "Hello"⟩)).2)).submitBtn =
        ⟨lit "Send Message", false⟩ := by
  have h := submitHandler_valid_sends ⟨false⟩
    (samplePage ⟨lit "Jo", lit "jo@x.com", lit "Hi", lit "Hello"⟩) (by decide) []
    (fun t ht => absurd ht (List.not_mem_nil t))
  exact ⟨by decide, h.1, h.2.2.2.2.2.1⟩

/-! ## Slugs -/

theorem mem_dropEndWhile {p : Nat → Bool} {s : JSString} {c : Nat}
    (h : c ∈ dropEndWhile p s) : c ∈ s := by
  unfold dropEndWhile at h
  rw [List.mem_reverse] at h
  exact List.mem_reverse.mp ((List.dropWhile_sublist p).subset h)

theorem mem_trim {s : JSString} {c : Nat} (h : c ∈ trim s) : c ∈ s :=
  (List.dropWhile_sublist _).subset (mem_dropEndWhile h)

theorem mem_stripHyphens {s : JSString} {c : Nat} (h : c ∈ stripHyphens s) : c ∈ s :=
  (List.dropWhile_sublist _).subset (mem_dropEndWhile h)

theorem asciiLower_not_upper (c : Nat) : ¬ IsAsciiUpper (asciiLower c) := by
  unfold IsAsciiUpper asciiLower
  split <;> omega

theorem mem_mapCase_lower (lower : CaseTable) (hlower : YieldsNoAsciiUpper lower)
    (s rest : JSString) (i c : Nat) (hrest : s.drop i = rest)
    (h : c ∈ mapCase asciiLower lower s i rest) : ¬ IsAsciiUpper c := by
  induction rest generalizing i with
  | nil => simp [mapCase] at h
  | cons x xs ih =>
    have hget : s.get? i = some x := by
      rw [List.get?_eq_getElem?, ← List.head?_drop, hrest]
      rfl
    have htail : s.drop (i + 1) = xs := by
      rw [← List.tail_drop, hrest]
      rfl
    simp only [mapCase, List.mem_append] at h
    rcases h with h | h
    · split at h
      · rw [List.mem_singleton] at h
        subst h
        exact asciiLower_not_upper x
      · exact hlower s i x hget (by omega) c h
    · exact ih (i + 1) htail h

theorem mem_replaceRuns {b : Bool} {s : JSString} {c : Nat}
    (h : c ∈ replaceRuns isSeparator (lit "-") b s) :
    c = 0x2D ∨ (c ∈ s ∧ isSeparator c = false) := by
  induction s generalizing b with
  | nil => simp [replaceRuns] at h
  | cons x xs ih =>
    simp only [replaceRuns] at h
    by_cases hx : isSeparator x = true
    · rw [if_pos hx] at h
      cases b with
      | true =>
        rw [if_pos rfl] at h
        rcases ih h with h | ⟨h, h'⟩
        · exact Or.inl h
        · exact Or.inr ⟨List.mem_cons_of_mem _ h, h'⟩
      | false =>
        simp only [Bool.false_eq_true, if_false, List.mem_append] at h
        rcases h with h | h
        · left
          simpa [lit] using h
        · rcases ih h with h | ⟨h, h'⟩
          · exact Or.inl h
          · exact Or.inr ⟨List.mem_cons_of_mem _ h, h'⟩
    · rw [if_neg hx, List.mem_cons] at h
      rcases h with rfl | h
      · exact Or.inr ⟨List.mem_cons_self _ _, by simpa using hx⟩
      · rcases ih h with h | ⟨h, h'⟩
        · exact Or.inl h
        · exact Or.inr ⟨List.mem_cons_of_mem _ h, h'⟩

theorem isSlugChar_of_kept {c : Nat} (hk : isSlugKept c = true) (hs : isSeparator c = false)
    (hu : ¬ IsAsciiUpper c) : IsSlugChar c := by
  unfold IsAsciiUpper at hu
  unfold IsSlugChar
  simp only [isSlugKept, isSeparator, isWordChar, Bool.or_eq_true, Bool.and_eq_true,
    decide_eq_true_eq, beq_iff_eq, Bool.or_eq_false_iff, beq_eq_false_iff_ne] at hk hs
  obtain ⟨⟨hws, h5f⟩, h2d⟩ := hs
  rw [hws] at hk
  simp only [Bool.false_eq_true, or_false] at hk
  omega

theorem slugify_chars (lower : CaseTable) (hlower : YieldsNoAsciiUpper lower) (s : JSString) :
    ∀ c ∈ slugify lower s, IsSlugChar c := by
  intro c hc
  unfold slugify at hc
  rcases mem_replaceRuns (mem_stripHyphens hc) with h | ⟨h, hsep⟩
  · exact Or.inr (Or.inr h)
  · rw [List.mem_filter] at h
    exact isSlugChar_of_kept h.2 hsep
      (mem_mapCase_lower lower hlower _ _ 0 c rfl (mem_trim h.1))

theorem dropEndWhile_initial (p : Nat → Bool) (s : JSString) : dropEndWhile p s <+: s := by
  unfold dropEndWhile
  have h := List.dropWhile_suffix (l := s.reverse) p
  rw [← List.reverse_prefix, List.reverse_reverse] at h
  exact h

theorem head?_of_initial {l₁ l₂ : JSString} (h : l₁ <+: l₂) {a : Nat}
    (ha : l₁.head? = some a) : l₂.head? = some a := by
  obtain ⟨r, rfl⟩ := h
  cases l₁ with
  | nil => simp at ha
  | cons x xs => simpa using ha

theorem head?_dropWhile_false (p : Nat → Bool) (s : JSString) {a : Nat}
    (ha : (s.dropWhile p).head? = some a) : p a = false := by
  have h := List.head?_dropWhile_not p s
  rw [ha] at h
  exact h

theorem getLast?_dropEndWhile_false (p : Nat → Bool) (s : JSString) {a : Nat}
    (ha : (dropEndWhile p s).getLast? = some a) : p a = false := by
  unfold dropEndWhile at ha
  rw [List.getLast?_reverse] at ha
  exact head?_dropWhile_false p _ ha

theorem stripHyphens_head (s : JSString) : (stripHyphens s).head? ≠ some 0x2D := by
  intro h
  have h' := head?_dropWhile_false isHyphen s
    (head?_of_initial (dropEndWhile_initial isHyphen _) h)
  simp [isHyphen] at h'

theorem stripHyphens_last (s : JSString) : (stripHyphens s).getLast? ≠ some 0x2D := by
  intro h
  have h' := getLast?_dropEndWhile_false isHyphen _ h
  simp [isHyphen] at h'

theorem dropWhile_eq_self_of_head (p : Nat → Bool) (s : JSString)
    (h : ∀ a, s.head? = some a → p a = false) : s.dropWhile p = s := by
  cases s with
  | nil => rfl
  | cons x xs => simp [List.dropWhile, h x rfl]

theorem dropEndWhile_eq_self_of_last (p : Nat → Bool) (s : JSString)
    (h : ∀ a, s.getLast? = some a → p a = false) : dropEndWhile p s = s := by
  unfold dropEndWhile
  rw [dropWhile_eq_self_of_head p s.reverse (by simpa using h), List.reverse_reverse]

theorem replaceRuns_apart (s : JSString) :
    HyphensApart (replaceRuns isSeparator (lit "-") false s) ∧
      HyphensApart (replaceRuns isSeparator (lit "-") true s) ∧
      (replaceRuns isSeparator (lit "-") true s).head? ≠ some 0x2D := by
  induction s with
  | nil => simp [replaceRuns, HyphensApart]
  | cons x xs ih =>
    obtain ⟨ih1, ih2, ih3⟩ := ih
    by_cases hx : isSeparator x = true
    · simp only [replaceRuns, if_pos hx, if_true, Bool.false_eq_true, if_false]
      refine ⟨?_, ih2, ih3⟩
      show HyphensApart ([0x2D] ++ _)
      refine List.Chain'.cons' ih2 (fun y hy hy' => ih3 ?_)
      have hy2 : (replaceRuns isSeparator (lit "-") true xs).head? = some y := hy
      rw [hy2, hy'.2]
    · have hne : x ≠ 0x2D := by
        rintro rfl
        exact hx (by decide)
      simp only [replaceRuns, if_neg hx]
      have hc : HyphensApart (x :: replaceRuns isSeparator (lit "-") false xs) :=
        List.Chain'.cons' ih1 (fun y _ hy' => hne hy'.1)
      refine ⟨hc, hc, ?_⟩
      simpa using hne

theorem isSeparator_of_slugChar {c : Nat} (h : IsSlugChar c) (hne : c ≠ 0x2D) :
    isSeparator c = false := by
  unfold IsSlugChar at h
  simp only [isSeparator, isWhiteSpace, Bool.or_eq_false_iff, beq_eq_false_iff_ne,
    Bool.and_eq_false_imp, decide_eq_true_eq, decide_eq_false_iff_not]
  omega

theorem replaceRuns_fixed (s : JSString) (hs : ∀ c ∈ s, IsSlugChar c) (ha : HyphensApart s) :
    replaceRuns isSeparator (lit "-") false s = s ∧
      (s.head? ≠ some 0x2D → replaceRuns isSeparator (lit "-") true s = s) := by
  induction s with
  | nil => simp [replaceRuns]
  | cons x xs ih =>
    have hxs : ∀ c ∈ xs, IsSlugChar c := fun c hc => hs c (List.mem_cons_of_mem _ hc)
    have hch := List.chain'_cons'.mp ha
    obtain ⟨ih1, ih2⟩ := ih hxs hch.2
    by_cases hx : x = 0x2D
    · subst hx
      have hhead : xs.head? ≠ some 0x2D := fun h => hch.1 _ (Option.mem_def.mpr h) ⟨rfl, rfl⟩
      refine ⟨?_, fun h => absurd rfl h⟩
      have hsep : isSeparator 0x2D = true := by decide
      simp only [replaceRuns, if_pos hsep, Bool.false_eq_true, if_false, ih2 hhead]
      rfl
    · have hsep := isSeparator_of_slugChar (hs x (List.mem_cons_self _ _)) hx
      simp [replaceRuns, hsep, ih1]

theorem sampleLower_sound : YieldsNoAsciiUpper sampleLower := by
  intro s i u hget hu c hc
  unfold sampleLower at hc
  rw [hget] at hc
  unfold IsAsciiUpper
  split at hc
  · simp at hc; omega
  · simp at hc; omega
  · rename_i x heq
    simp only [Option.some.injEq] at heq
    subst heq
    simp at hc; omega
  · simp at hc

theorem mapCase_lower_fixed (lower : CaseTable) (s rest : JSString) (i : Nat)
    (h : ∀ c ∈ rest, IsSlugChar c) : mapCase asciiLower lower s i rest = rest := by
  induction rest generalizing i with
  | nil => rfl
  | cons x xs ih =>
    have hx : IsSlugChar x := h x (List.mem_cons_self _ _)
    unfold IsSlugChar at hx
    have h1 : x < 0x80 := by omega
    have h2 : asciiLower x = x := by
      unfold asciiLower
      rw [if_neg (by omega)]
    simp only [mapCase, if_pos h1, h2, ih (i + 1) (fun c hc => h c (List.mem_cons_of_mem _ hc))]
    rfl

theorem isWhiteSpace_of_slugChar {c : Nat} (h : IsSlugChar c) : isWhiteSpace c = false := by
  unfold IsSlugChar at h
  simp only [isWhiteSpace, Bool.or_eq_false_iff, beq_eq_false_iff_ne,
    Bool.and_eq_false_imp, decide_eq_true_eq, decide_eq_false_iff_not]
  omega

theorem isSlugKept_of_slugChar {c : Nat} (h : IsSlugChar c) : isSlugKept c = true := by
  unfold IsSlugChar at h
  simp only [isSlugKept, isWordChar, Bool.or_eq_true, Bool.and_eq_true, decide_eq_true_eq,
    beq_iff_eq]
  omega

theorem trim_fixed (s : JSString) (h : ∀ c ∈ s, isWhiteSpace c = false) : trim s = s := by
  unfold trim
  rw [dropWhile_eq_self_of_head isWhiteSpace s
    (fun a ha => h a (List.mem_of_mem_head? (Option.mem_def.mpr ha)))]
  exact dropEndWhile_eq_self_of_last isWhiteSpace s
    (fun a ha => h a (List.mem_of_mem_getLast? (Option.mem_def.mpr ha)))

theorem stripHyphens_fixed (s : JSString) (hh : s.head? ≠ some 0x2D)
    (hl : s.getLast? ≠ some 0x2D) : stripHyphens s = s := by
  have key : ∀ a : Nat, a ≠ 0x2D → isHyphen a = false := fun a ha => by simpa [isHyphen] using ha
  unfold stripHyphens
  rw [dropWhile_eq_self_of_head isHyphen s (fun a ha => key a (fun h => hh (h ▸ ha)))]
  exact dropEndWhile_eq_self_of_last isHyphen s (fun a ha => key a (fun h => hl (h ▸ ha)))

theorem slugify_apart (lower : CaseTable) (s : JSString) : HyphensApart (slugify lower s) := by
  unfold slugify stripHyphens
  exact List.Chain'.prefix
    (List.Chain'.suffix (replaceRuns_apart _).1 (List.dropWhile_suffix _))
    (dropEndWhile_initial _ _)

theorem slugify_fixed (lower : CaseTable) (t : JSString) (hc : ∀ c ∈ t, IsSlugChar c)
    (hh : t.head? ≠ some 0x2D) (hl : t.getLast? ≠ some 0x2D) (ha : HyphensApart t) :
    slugify lower t = t := by
  unfold slugify toLowerCase
  rw [mapCase_lower_fixed lower t t 0 hc,
    trim_fixed t (fun c h => isWhiteSpace_of_slugChar (hc c h)),
    List.filter_eq_self.mpr (fun c h => isSlugKept_of_slugChar (hc c h)),
    (replaceRuns_fixed t hc ha).1, stripHyphens_fixed t hh hl]

/-- C6: when the platform's lower-case table yields no upper-case ASCII letter, every code unit
of `slugify(s)` is a lower-case ASCII letter, an ASCII digit or a hyphen. -/
theorem slugify_only_slug_chars (lower : CaseTable) (hlower : YieldsNoAsciiUpper lower)
    (s : JSString) (c : Nat) (hc : c ∈ slugify lower s) :
    (0x61 ≤ c ∧ c ≤ 0x7A) ∨ (0x30 ≤ c ∧ c ≤ 0x39) ∨ c = 0x2D :=
  slugify_chars lower hlower s c hc

theorem slugify_only_slug_chars_witness :
    YieldsNoAsciiUpper sampleLower ∧
      slugify sampleLower (lit "Héllo, " ++ [0x212A] ++ lit "_9!") = lit "hllo-k-9" ∧
      ((0x61 ≤ 0x6B ∧ 0x6B ≤ 0x7A) ∨ (0x30 ≤ 0x6B ∧ 0x6B ≤ 0x39) ∨ 0x6B = 0x2D) :=
  ⟨sampleLower_sound, by decide,
    slugify_only_slug_chars sampleLower sampleLower_sound
      (lit "Héllo, " ++ [0x212A] ++ lit "_9!") 0x6B (by decide)⟩

/-- C7: `slugify(s)` neither begins nor ends with a hyphen. -/
theorem slugify_no_edge_hyphen (lower : CaseTable) (s : JSString) :
    (slugify lower s).head? ≠ some 0x2D ∧ (slugify lower s).getLast? ≠ some 0x2D :=
  ⟨stripHyphens_head _, stripHyphens_last _⟩

/-- C8: `slugify` is idempotent, when the platform's lower-case table yields no upper-case
ASCII letter. -/
theorem slugify_idempotent (lower : CaseTable) (hlower : YieldsNoAsciiUpper lower)
    (s : JSString) : slugify lower (slugify lower s) = slugify lower s :=
  slugify_fixed lower _ (slugify_chars lower hlower s) (stripHyphens_head _)
    (stripHyphens_last _) (slugify_apart lower s)

theorem slugify_idempotent_witness :
    YieldsNoAsciiUpper sampleLower ∧
      slugify sampleLower (lit "--Foo__Bar -- baz--") = lit "foo-bar-baz" ∧
      slugify sampleLower (slugify sampleLower (lit "--Foo__Bar -- baz--")) =
        slugify sampleLower (lit "--Foo__Bar -- baz--") :=
  ⟨sampleLower_sound, by decide,
    slugify_idempotent sampleLower sampleLower_sound (lit "--Foo__Bar -- baz--")⟩

/-! ## Clamping inside the bounds, and the bounded cache -/

/-- C11: `clamp(num, min, max)` is `num` whenever `min <= num <= max`. -/
theorem clamp_eq_self_of_within (num min max : Int) (h₁ : min ≤ num) (h₂ : num ≤ max) :
    clamp num min max = num := by
  unfold clamp mathMin mathMax
  split <;> split <;> omega

theorem clamp_eq_self_of_within_witness :
    (0 : Int) ≤ 5 ∧ (5 : Int) ≤ 10 ∧ clamp 5 0 10 = 5 :=
  ⟨by decide, by decide, clamp_eq_self_of_within 5 0 10 (by decide) (by decide)⟩

theorem mapHas_iff {κ ν : Type} [DecidableEq κ] (m : JSMap κ ν) (key : κ) :
    mapHas m key = true ↔ key ∈ m.map Prod.fst := by
  unfold mapHas
  simp only [List.any_eq_true, decide_eq_true_eq, List.mem_map]

theorem mapSet_of_new {κ ν : Type} [DecidableEq κ] (m : JSMap κ ν) (key : κ) (value : ν)
    (h : key ∉ m.map Prod.fst) : mapSet m key value = m ++ [(key, value)] := by
  unfold mapSet
  rw [if_neg]
  rw [mapHas_iff]
  exact h

theorem mapDelete_head {κ ν : Type} [DecidableEq κ] (e : κ × ν) (m : JSMap κ ν)
    (h : e.1 ∉ m.map Prod.fst) : mapDelete (e :: m) e.1 = m := by
  unfold mapDelete
  rw [List.filter_cons_of_neg (by simp), List.filter_eq_self]
  intro x hx
  have : x.1 ≠ e.1 := fun hxe => h (List.mem_map.mpr ⟨x, hx, hxe⟩)
  simpa using this

theorem length_mapSet_le {κ ν : Type} [DecidableEq κ] (m : JSMap κ ν) (key : κ) (value : ν) :
    (mapSet m key value).length ≤ m.length + 1 := by
  unfold mapSet
  split <;> simp

theorem size_set_le {κ ν : Type} [DecidableEq κ] (c : Cache κ ν) (key : κ) (value : ν)
    (hpos : 1 ≤ c.maxSize) (h : c.size ≤ c.maxSize) : (c.set key value).size ≤ c.maxSize := by
  unfold Cache.size at h ⊢
  unfold Cache.set
  simp only
  refine le_trans (length_mapSet_le _ key value) ?_
  by_cases hfull : c.cache.length ≥ c.maxSize
  · rw [if_pos hfull]
    cases hc : c.cache with
    | nil =>
      rw [hc] at hfull
      simp at hfull
      omega
    | cons e m =>
      rw [hc] at h
      simp only [firstKey, List.head?_cons, Option.map_some', mapDelete]
      rw [List.filter_cons_of_neg (by simp)]
      have := List.length_filter_le (fun x : κ × ν => decide (x.1 ≠ e.1)) m
      simp only [List.length_cons] at h
      omega
  · rw [if_neg hfull]
    omega

/-- For a capacity of at least one the size never exceeds the capacity. -/
theorem size_run_le {κ ν : Type} [DecidableEq κ] (ops : List (CacheOp κ ν)) (c : Cache κ ν)
    (hpos : 1 ≤ c.maxSize) (h : c.size ≤ c.maxSize) :
    (c.run ops).maxSize = c.maxSize ∧ (c.run ops).size ≤ c.maxSize := by
  induction ops generalizing c with
  | nil => exact ⟨rfl, h⟩
  | cons op ops ih =>
    have hstep : (c.apply op).maxSize = c.maxSize ∧ (c.apply op).size ≤ c.maxSize := by
      cases op with
      | set key value => exact ⟨rfl, size_set_le c key value hpos h⟩
      | clear => exact ⟨rfl, Nat.zero_le _⟩
    have := ih (c.apply op) (hstep.1 ▸ hpos) (hstep.1 ▸ hstep.2)
    rw [hstep.1] at this
    exact this

theorem setAll_append {κ ν : Type} [DecidableEq κ] (c : Cache κ ν) (l : List (κ × ν))
    (e : κ × ν) : c.setAll (l ++ [e]) = (c.setAll l).set e.1 e.2 := by
  unfold Cache.setAll
  rw [List.foldl_append]
  rfl

theorem setAll_fresh {κ ν : Type} [DecidableEq κ] (m : Nat) (hm : 1 ≤ m) (kvs : List (κ × ν))
    (hd : (kvs.map Prod.fst).Nodup) :
    ((createCache κ ν m).setAll kvs).maxSize = m ∧
      ((createCache κ ν m).setAll kvs).cache = kvs.drop (kvs.length - m) := by
  induction kvs using List.reverseRecOn with
  | nil => exact ⟨rfl, by simp [Cache.setAll, createCache]⟩
  | append_singleton l e ih =>
    rw [List.map_append, List.nodup_append] at hd
    obtain ⟨hl, -, hdisj⟩ := hd
    have he : e.1 ∉ l.map Prod.fst := fun h => hdisj h (by simp)
    obtain ⟨ih1, ih2⟩ := ih hl
    rw [setAll_append]
    refine ⟨ih1, ?_⟩
    unfold Cache.set
    simp only [ih1, ih2, List.length_drop, List.length_append, List.length_singleton]
    by_cases hfull : m ≤ l.length
    · have hlt : l.length - m < l.length := by omega
      rw [if_pos (by omega), List.drop_eq_getElem_cons hlt]
      simp only [firstKey, List.head?_cons, Option.map_some']
      have hsuf : (l[l.length - m] :: l.drop (l.length - m + 1)) <:+ l := by
        rw [← List.drop_eq_getElem_cons hlt]
        exact List.drop_suffix _ _
      have hnd : ((l[l.length - m] :: l.drop (l.length - m + 1)).map Prod.fst).Nodup :=
        hl.sublist (hsuf.sublist.map _)
      rw [List.map_cons, List.nodup_cons] at hnd
      rw [mapDelete_head _ _ hnd.1, mapSet_of_new]
      · rw [List.drop_append_of_le_length (by omega)]
        congr 2
        omega
      · intro h
        exact he ((List.drop_sublist _ l).map _ |>.subset h)
    · have h0 : l.length - m = 0 := by omega
      have h1 : l.length + 1 - m = 0 := by omega
      rw [if_neg (by omega), h0, h1, List.drop_zero, List.drop_zero, mapSet_of_new _ _ _ he]

/-- C12: with capacity `m >= 1`, after `n` sets with pairwise distinct keys the cache holds
exactly the last `min n m` pairs: `has` is true for their keys and false for the earlier keys;
with capacity 2 and the keys `a`, `b`, `c` it holds `b` and `c` only. -/
theorem cache_keeps_newest {κ ν : Type} [DecidableEq κ] (m : Nat) (hm : 1 ≤ m)
    (kvs : List (κ × ν)) (hd : (kvs.map Prod.fst).Nodup) :
    ((createCache κ ν m).setAll kvs).cache =
        kvs.drop (kvs.length - min kvs.length m) ∧
      ((createCache κ ν m).setAll kvs).size = min kvs.length m ∧
      (∀ k ∈ (kvs.drop (kvs.length - min kvs.length m)).map Prod.fst,
        ((createCache κ ν m).setAll kvs).has k = true) ∧
      (∀ k ∈ (kvs.take (kvs.length - min kvs.length m)).map Prod.fst,
        ((createCache κ ν m).setAll kvs).has k = false) ∧
      ((createCache JSString Nat 2).setAll [(lit "a", 1), (lit "b", 2), (lit "c", 3)]).cache =
        [(lit "b", 2), (lit "c", 3)] ∧
      ((createCache JSString Nat 2).setAll [(lit "a", 1), (lit "b", 2), (lit "c", 3)]).has
        (lit "a") = false := by
  have hidx : kvs.length - min kvs.length m = kvs.length - m := by omega
  have hc := (setAll_fresh m hm kvs hd).2
  rw [hidx]
  refine ⟨hc, ?_, ?_, ?_, by decide, by decide⟩
  · unfold Cache.size
    rw [hc, List.length_drop]
    omega
  · intro k hk
    unfold Cache.has
    rw [mapHas_iff, hc]
    exact hk
  · intro k hk
    unfold Cache.has
    rw [Bool.eq_false_iff, Ne, mapHas_iff, hc]
    intro hk'
    have hsplit := hd
    rw [← List.take_append_drop (kvs.length - m) kvs, List.map_append,
      List.nodup_append] at hsplit
    exact hsplit.2.2 hk hk'

theorem cache_keeps_newest_witness :
    1 ≤ 2 ∧ ([(lit "a", 1), (lit "b", 2), (lit "c", 3)].map Prod.fst).Nodup ∧
      ((createCache JSString Nat 2).setAll [(lit "a", 1), (lit "b", 2), (lit "c", 3)]).size =
        min 3 2 :=
  ⟨by decide, by decide,
    (cache_keeps_newest 2 (by decide) [(lit "a", 1), (lit "b", 2), (lit "c", 3)]
      (by decide)).2.1⟩

/-- For every capacity of at least one the size of a fresh cache stays within the capacity,
whatever is set or cleared. -/
theorem size_le_of_pos_capacity {κ ν : Type} [DecidableEq κ] (m : Nat) (hm : 1 ≤ m)
    (ops : List (CacheOp κ ν)) : ((createCache κ ν m).run ops).size ≤ m :=
  (size_run_le ops (createCache κ ν m) hm (Nat.zero_le _)).2

/-- C13, at the capacity where it fails: a cache made with `createCache(0)` holds one entry
after a single `set`, which is more than its capacity. -/
theorem cache_size_exceeds_zero_capacity :
    ((createCache JSString Nat 0).run [.set (lit "a") 1]).size = 1 ∧
      ¬ ((createCache JSString Nat 0).run [.set (lit "a") 1]).size ≤ 0 := by
  decide

/-! ## The typewriter -/

theorem substring_zero (w : JSString) (k : Nat) : substring w 0 (k : Int) = w.take k := by
  unfold substring clampIndex
  have h0 : (max (0 : Int) (min 0 (w.length : Int))).toNat = 0 := by
    have : min (0 : Int) (w.length : Int) = 0 := by omega
    rw [this]; rfl
  have hk : (max (0 : Int) (min (k : Int) (w.length : Int))).toNat = min k w.length := by
    omega
  simp only [h0, hk, Nat.zero_min, Nat.zero_max, List.drop_zero, Nat.sub_zero]
  rcases Nat.le_total k w.length with h | h
  · rw [Nat.min_eq_left h]
  · rw [Nat.min_eq_right h, List.take_of_length_le (le_refl _), List.take_of_length_le h]

theorem type_typing (texts : List JSString) (i c sp : Nat) (txt w : JSString)
    (hw : texts.get? i = some w) :
    type texts ⟨i, (c : Int), false, sp, txt⟩ =
      some ⟨i, ((c + 1 : Nat) : Int), decide (c + 1 = w.length),
        if c + 1 = w.length then 1500 else 100, w.take (c + 1)⟩ := by
  have hs := substring_zero w (c + 1)
  rw [Nat.cast_add, Nat.cast_one] at hs
  unfold type
  simp only [hw, Bool.false_eq_true, if_false, hs]
  by_cases h : c + 1 = w.length
  · have h' : (c : Int) + 1 = (w.length : Int) := by omega
    simp [h, h']
  · have h' : ¬ ((c : Int) + 1 = (w.length : Int)) := by omega
    simp [h, h']

theorem type_deleting (texts : List JSString) (i c sp : Nat) (txt w : JSString)
    (hw : texts.get? i = some w) :
    type texts ⟨i, ((c + 1 : Nat) : Int), true, sp, txt⟩ =
      some ⟨if c = 0 then (i + 1) % texts.length else i, (c : Int), decide (c ≠ 0),
        if c = 0 then 500 else 50, w.take c⟩ := by
  have hs := substring_zero w c
  have hc : ((c + 1 : Nat) : Int) - 1 = (c : Int) := by omega
  unfold type
  simp only [hw, if_true, hc, hs]
  by_cases h : c = 0
  · subst h
    simp
  · have h' : ¬ ((c : Int) = 0) := by omega
    simp [h, h']

theorem ticks_add (texts : List JSString) (a b : Nat) (tw : Typewriter) :
    ticks texts (a + b) tw = (ticks texts a tw).bind (ticks texts b) := by
  induction a generalizing tw with
  | zero => simp [ticks]
  | succ a ih =>
    rw [Nat.succ_add]
    simp only [ticks]
    cases type texts tw with
    | none => rfl
    | some next => simp [ih]

theorem displayed_add (texts : List JSString) (a b : Nat) (tw : Typewriter) :
    displayed texts (a + b) tw =
      displayed texts a tw ++ displayedNext texts b (ticks texts a tw) := by
  induction a generalizing tw with
  | zero => simp [displayed, ticks, displayedNext]
  | succ a ih =>
    rw [Nat.succ_add]
    simp only [displayed, ticks]
    cases type texts tw with
    | none => rfl
    | some next => simp [ih]

theorem typing_phase (texts : List JSString) (i : Nat) (w : JSString)
    (hw : texts.get? i = some w) (j c sp : Nat) (txt : JSString) (hj : c + (j + 1) = w.length) :
    displayed texts (j + 1) ⟨i, (c : Int), false, sp, txt⟩ =
        (List.range (j + 1)).map (fun k => w.take (c + k + 1)) ∧
      ticks texts (j + 1) ⟨i, (c : Int), false, sp, txt⟩ =
        some ⟨i, (w.length : Int), true, 1500, w⟩ := by
  induction j generalizing c sp txt with
  | zero =>
    have hc : c + 1 = w.length := hj
    simp only [displayed, ticks, type_typing texts i c sp txt w hw, hc, if_true, decide_True,
      Option.some_bind, List.take_length]
    simp [List.range_succ, hc]
  | succ j ih =>
    have hc : ¬ (c + 1 = w.length) := by omega
    obtain ⟨ih1, ih2⟩ := ih (c + 1) 100 (w.take (c + 1)) (by omega)
    have hstep := type_typing texts i c sp txt w hw
    simp only [hc, if_false, decide_False] at hstep
    constructor
    · rw [displayed, hstep]
      simp only
      rw [ih1, List.range_succ_eq_map (j + 1), List.map_cons, List.map_map]
      congr 1
      apply List.map_congr_left
      intro k _
      simp only [Function.comp, Nat.succ_eq_add_one]
      congr 1
      omega
    · rw [ticks, hstep, Option.some_bind]
      exact ih2

theorem deleting_phase (texts : List JSString) (i : Nat) (w : JSString)
    (hw : texts.get? i = some w) (c sp : Nat) (txt : JSString) :
    displayed texts (c + 1) ⟨i, ((c + 1 : Nat) : Int), true, sp, txt⟩ =
        (List.range (c + 1)).map (fun k => w.take (c - k)) ∧
      ticks texts (c + 1) ⟨i, ((c + 1 : Nat) : Int), true, sp, txt⟩ =
        some ⟨(i + 1) % texts.length, 0, false, 500, []⟩ := by
  induction c generalizing sp txt with
  | zero =>
    have hstep := type_deleting texts i 0 sp txt w hw
    simp only [if_true, Nat.zero_add, ne_eq, not_true_eq_false, decide_False,
      List.take_zero, Nat.cast_one, Nat.cast_zero] at hstep
    simp [displayed, ticks, hstep]
  | succ c ih =>
    obtain ⟨ih1, ih2⟩ := ih 50 (w.take (c + 1))
    have hstep := type_deleting texts i (c + 1) sp txt w hw
    simp only [Nat.succ_ne_zero, if_false, ne_eq, not_false_eq_true, decide_True] at hstep
    constructor
    · rw [displayed, hstep]
      simp only
      rw [ih1, List.range_succ_eq_map (c + 1), List.map_cons, List.map_map]
      congr 1
      apply List.map_congr_left
      intro k _
      simp only [Function.comp, Nat.succ_eq_add_one]
      congr 1
      omega
    · rw [ticks, hstep, Option.some_bind]
      exact ih2

theorem length_growShrink (w : JSString) : (growShrink w).length = w.length + w.length := by
  simp [growShrink]

/-- One phrase: from the start of a non-empty phrase the typewriter shows the phrase grown
and shrunk and then stands at the start of the next phrase. -/
theorem phrase_run (texts : List JSString) (i : Nat) (w : JSString)
    (hw : texts.get? i = some w) (hne : w ≠ []) (sp : Nat) (txt : JSString) :
    displayed texts (growShrink w).length ⟨i, 0, false, sp, txt⟩ = growShrink w ∧
      ticks texts (growShrink w).length ⟨i, 0, false, sp, txt⟩ =
        some ⟨(i + 1) % texts.length, 0, false, 500, []⟩ := by
  obtain ⟨L, hL⟩ : ∃ L, w.length = L + 1 :=
    ⟨w.length - 1, by have := List.length_pos.mpr hne; omega⟩
  obtain ⟨t1, t2⟩ := typing_phase texts i w hw L 0 sp txt (by omega)
  obtain ⟨d1, d2⟩ := deleting_phase texts i w hw L 1500 w
  rw [length_growShrink, hL]
  rw [Nat.cast_zero] at t1 t2
  rw [← hL] at d1 d2
  rw [hL] at d1 d2
  constructor
  · rw [displayed_add, t1, t2]
    simp only [displayedNext]
    rw [hL, d1, growShrink, hL]
    simp only [Nat.zero_add, Nat.add_sub_cancel]
  · rw [ticks_add, t2, Option.some_bind, hL, d2]

theorem onePass_cons (w : JSString) (rest : List JSString) :
    onePass (w :: rest) = growShrink w ++ onePass rest := by
  simp [onePass]

theorem pass_from (texts : List JSString) (hall : ∀ w ∈ texts, w ≠ [])
    (rest : List JSString) (i sp : Nat) (txt : JSString) (hrest : texts.drop i = rest)
    (hne : rest ≠ []) :
    displayed texts (onePass rest).length ⟨i, 0, false, sp, txt⟩ = onePass rest ∧
      ticks texts (onePass rest).length ⟨i, 0, false, sp, txt⟩ =
        some ⟨0, 0, false, 500, []⟩ := by
  induction rest generalizing i sp txt with
  | nil => exact absurd rfl hne
  | cons w rest ih =>
    have hget : texts.get? i = some w := by
      rw [List.get?_eq_getElem?, ← List.head?_drop, hrest]
      rfl
    have htail : texts.drop (i + 1) = rest := by
      rw [← List.tail_drop, hrest]
      rfl
    have hlt : i < texts.length := by
      rw [List.get?_eq_getElem?] at hget
      exact (List.getElem?_eq_some_iff.mp hget).1
    have hw : w ≠ [] := hall w (List.get?_mem hget)
    obtain ⟨p1, p2⟩ := phrase_run texts i w hget hw sp txt
    rw [onePass_cons, List.length_append, displayed_add, ticks_add, p1, p2]
    simp only [displayedNext, Option.some_bind]
    by_cases hr : rest = []
    · subst hr
      have hlen : texts.length ≤ i + 1 := by
        have := congrArg List.length htail
        rw [List.length_drop, List.length_nil] at this
        omega
      have hi : i + 1 = texts.length := by omega
      rw [hi, Nat.mod_self]
      simp [onePass, displayed, ticks]
    · have hlen : i + 1 < texts.length := by
        have := congrArg List.length htail
        rw [List.length_drop] at this
        have hpos : 0 < rest.length := List.length_pos.mpr hr
        omega
      rw [Nat.mod_eq_of_lt hlen]
      obtain ⟨q1, q2⟩ := ih (i + 1) 500 [] htail hr
      exact ⟨by rw [q1], q2⟩

theorem rounds_run (texts : List JSString) (hne : texts ≠ []) (hall : ∀ w ∈ texts, w ≠ [])
    (r sp : Nat) (txt : JSString) :
    displayed texts (r * (onePass texts).length) ⟨0, 0, false, sp, txt⟩ =
      (List.replicate r (onePass texts)).flatten := by
  induction r generalizing sp txt with
  | zero => simp [displayed]
  | succ r ih =>
    obtain ⟨p1, p2⟩ := pass_from texts hall texts 0 sp txt rfl hne
    rw [Nat.succ_mul, Nat.add_comm, displayed_add, p1, p2]
    simp only [displayedNext]
    rw [ih 500 [], List.replicate_succ, List.flatten_cons]

theorem displayed_take (texts : List JSString) (a b : Nat) (tw : Typewriter) (h : a ≤ b) :
    displayed texts a tw = (displayed texts b tw).take a := by
  induction a generalizing b tw with
  | zero => simp [displayed]
  | succ a ih =>
    obtain ⟨b, rfl⟩ : ∃ b', b = b' + 1 := ⟨b - 1, by omega⟩
    simp only [displayed]
    cases type texts tw with
    | none => rfl
    | some next => simp [ih b next (by omega)]

theorem onePass_length_pos (texts : List JSString) (hne : texts ≠ [])
    (hall : ∀ w ∈ texts, w ≠ []) : 1 ≤ (onePass texts).length := by
  cases texts with
  | nil => exact absurd rfl hne
  | cons w rest =>
    have hw : 0 < w.length := List.length_pos.mpr (hall w (List.mem_cons_self _ _))
    rw [onePass_cons, List.length_append, length_growShrink]
    omega

theorem displayed_eq_expected (texts : List JSString) (hne : texts ≠ [])
    (hall : ∀ w ∈ texts, w ≠ []) (shown : JSString) (n : Nat) :
    displayed texts n (initTypewriter shown) = expectedTexts texts n := by
  have hle : n ≤ n * (onePass texts).length :=
    Nat.le_mul_of_pos_right n (onePass_length_pos texts hne hall)
  unfold expectedTexts initTypewriter
  rw [displayed_take texts n _ _ hle, rounds_run texts hne hall]

/-- C14: for a non-empty list of non-empty phrases the texts shown by successive ticks are
each phrase grown one code unit at a time and shrunk again, phrase after phrase in list order,
starting over after the last phrase; for `Hi`, `Yo` they start `H`, `Hi`, `H`, empty, `Y`,
`Yo`, `Y`, empty, `H`. -/
theorem typewriter_shows_passes (texts : List JSString) (hne : texts ≠ [])
    (hall : ∀ w ∈ texts, w ≠ []) (shown : JSString) (n : Nat) :
    displayed texts n (initTypewriter shown) = expectedTexts texts n ∧
      (displayed texts n (initTypewriter shown)).length = n ∧
      displayed [lit "Hi", lit "Yo"] 9 (initTypewriter shown) =
        [lit "H", lit "Hi", lit "H", lit "", lit "Y", lit "Yo", lit "Y", lit "", lit "H"] := by
  have key := displayed_eq_expected texts hne hall shown n
  refine ⟨key, ?_, ?_⟩
  · have hpos := onePass_length_pos texts hne hall
    have hle : n ≤ n * (onePass texts).length := Nat.le_mul_of_pos_right n hpos
    rw [key, expectedTexts, List.length_take, List.length_flatten]
    simp only [List.map_replicate, List.sum_replicate, smul_eq_mul]
    omega
  · rw [displayed_eq_expected [lit "Hi", lit "Yo"] (by decide) (by decide) shown 9]
    decide

theorem typewriter_shows_passes_witness :
    [lit "Hi", lit "Yo"] ≠ [] ∧ (∀ w ∈ [lit "Hi", lit "Yo"], w ≠ []) ∧
      displayed [lit "Hi", lit "Yo"] 5 (initTypewriter (lit "...")) =
        expectedTexts [lit "Hi", lit "Yo"] 5 ∧
      expectedTexts [lit "Hi", lit "Yo"] 5 = [lit "H", lit "Hi", lit "H", lit "", lit "Y"] :=
  ⟨by decide, by decide,
    (typewriter_shows_passes [lit "Hi", lit "Yo"] (by decide) (by decide) (lit "...") 5).1,
    by decide⟩

theorem inv_init (texts : List JSString) (hne : texts ≠ []) (hall : ∀ w ∈ texts, w ≠ [])
    (shown : JSString) : TypewriterInv texts (initTypewriter shown) := by
  cases texts with
  | nil => exact absurd rfl hne
  | cons w rest =>
    refine ⟨w, 0, rfl, rfl, fun _ => ?_, fun h => ?_⟩
    · exact List.length_pos.mpr (hall w (List.mem_cons_self _ _))
    · exact absurd h (by simp [initTypewriter])

theorem inv_step (texts : List JSString) (hall : ∀ w ∈ texts, w ≠ []) (tw : Typewriter)
    (hinv : TypewriterInv texts tw) :
    ∃ (w : JSString) (next : Typewriter), texts.get? tw.textIndex = some w ∧
      type texts tw = some next ∧ TypewriterInv texts next ∧
      next.typeSpeed = expectedDelay w tw.isDeleting next.textContent ∧
      (next.typeSpeed = 500 → next.textIndex = (tw.textIndex + 1) % texts.length) ∧
      (next.typeSpeed ≠ 500 → next.textIndex = tw.textIndex) := by
  obtain ⟨i, ci, del, sp, txt⟩ := tw
  obtain ⟨w, c, hw, hc, htyping, hdeleting⟩ := hinv
  simp only at hw hc htyping hdeleting
  subst hc
  have hN : 0 < texts.length := by
    rw [List.get?_eq_getElem?] at hw
    exact lt_of_le_of_lt (Nat.zero_le _) (List.getElem?_eq_some_iff.mp hw).1
  cases del with
  | false =>
    have hlt := htyping rfl
    refine ⟨w, _, hw, type_typing texts i c sp txt w hw, ?_, ?_, ?_, ?_⟩
    · refine ⟨w, c + 1, hw, rfl, fun h => ?_, fun _ => ⟨by omega, by omega⟩⟩
      simp only [decide_eq_false_iff_not] at h
      omega
    · simp only [expectedDelay, Bool.false_eq_true, if_false, List.take_eq_self_iff]
      by_cases h : c + 1 = w.length
      · rw [if_pos h, if_pos (by omega)]
      · rw [if_neg h, if_neg (by omega)]
    · intro h
      simp only at h
      split at h <;> omega
    · intro _
      rfl
  | true =>
    obtain ⟨h1, h2⟩ := hdeleting rfl
    obtain ⟨c, rfl⟩ : ∃ c', c = c' + 1 := ⟨c - 1, by omega⟩
    have hwne : w ≠ [] := hall w (List.get?_mem hw)
    refine ⟨w, _, hw, type_deleting texts i c sp txt w hw, ?_, ?_, ?_, ?_⟩
    · by_cases h0 : c = 0
      · subst h0
        have hlt : (i + 1) % texts.length < texts.length := Nat.mod_lt _ hN
        refine ⟨texts.get ⟨_, hlt⟩, 0, ?_, rfl, fun _ => ?_, fun h => ?_⟩
        · simp [List.get?_eq_getElem?, List.getElem?_eq_getElem hlt]
        · exact List.length_pos.mpr (hall _ (List.get_mem _ _ _))
        · simp at h
      · refine ⟨w, c, ?_, rfl, fun h => ?_, fun _ => ⟨by omega, by omega⟩⟩
        · simpa [h0] using hw
        · simp [h0] at h
    · simp only [expectedDelay, if_true]
      by_cases h0 : c = 0
      · subst h0
        simp
      · have : List.take c w ≠ [] := by
          cases w with
          | nil => exact absurd rfl hwne
          | cons x xs =>
            obtain ⟨c', rfl⟩ : ∃ c', c = c' + 1 := ⟨c - 1, by omega⟩
            simp
        rw [if_neg h0, if_neg this]
    · intro h
      simp only at h
      split at h
      · rename_i h0
        simp [h0]
      · omega
    · intro h
      simp only at h ⊢
      split at h
      · exact absurd rfl h
      · rename_i h0
        simp [h0]

theorem ticks_succ (texts : List JSString) (n : Nat) (tw : Typewriter) :
    ticks texts (n + 1) tw = (ticks texts n tw).bind (type texts) := by
  rw [ticks_add]
  congr 1
  funext t
  simp [ticks]

theorem inv_ticks (texts : List JSString) (hne : texts ≠ []) (hall : ∀ w ∈ texts, w ≠ [])
    (shown : JSString) (n : Nat) :
    ∃ tw, ticks texts n (initTypewriter shown) = some tw ∧ TypewriterInv texts tw := by
  induction n with
  | zero => exact ⟨_, rfl, inv_init texts hne hall shown⟩
  | succ n ih =>
    obtain ⟨tw, htw, hinv⟩ := ih
    obtain ⟨w, next, -, hstep, hnext, -⟩ := inv_step texts hall tw hinv
    exact ⟨next, by rw [ticks_succ, htw, Option.some_bind, hstep], hnext⟩

theorem delay_iffs (w shown : JSString) (del : Bool) :
    (expectedDelay w del shown = 1500 ↔ del = false ∧ shown = w) ∧
      (expectedDelay w del shown = 500 ↔ del = true ∧ shown = []) := by
  unfold expectedDelay
  cases del
  · by_cases h : shown = w
    · simp [h]
    · simp [h]
  · by_cases h : shown = []
    · simp [h]
    · simp [h]

/-- C15: for non-empty phrases every tick reschedules itself with the delay the state it
reached calls for: 1500 ms when a typing tick has completed the phrase, 100 ms after any other
typing tick, 500 ms when a deleting tick has removed the last code unit, in which case the
phrase index moves on by one modulo the number of phrases, and 50 ms after any other deleting
tick. -/
theorem typewriter_delay (texts : List JSString) (hne : texts ≠ [])
    (hall : ∀ w ∈ texts, w ≠ []) (shown : JSString) (n : Nat) :
    ∃ (tw next : Typewriter) (w : JSString),
      ticks texts n (initTypewriter shown) = some tw ∧
      texts.get? tw.textIndex = some w ∧
      type texts tw = some next ∧
      (next.typeSpeed = 1500 ↔ tw.isDeleting = false ∧ next.textContent = w) ∧
      (next.typeSpeed = 500 ↔ tw.isDeleting = true ∧ next.textContent = []) ∧
      (tw.isDeleting = false → next.textContent ≠ w → next.typeSpeed = 100) ∧
      (tw.isDeleting = true → next.textContent ≠ [] → next.typeSpeed = 50) ∧
      (next.typeSpeed = 500 → next.textIndex = (tw.textIndex + 1) % texts.length) ∧
      (next.typeSpeed ≠ 500 → next.textIndex = tw.textIndex) := by
  obtain ⟨tw, htw, hinv⟩ := inv_ticks texts hne hall shown n
  obtain ⟨w, next, hw, hstep, -, hdelay, hidx, hidx'⟩ := inv_step texts hall tw hinv
  refine ⟨tw, next, w, htw, hw, hstep, ?_, ?_, ?_, ?_, hidx, hidx'⟩
  · rw [hdelay]
    exact (delay_iffs w next.textContent tw.isDeleting).1
  · rw [hdelay]
    exact (delay_iffs w next.textContent tw.isDeleting).2
  · intro h1 h2
    rw [hdelay, h1]
    simp [expectedDelay, h2]
  · intro h1 h2
    rw [hdelay, h1]
    simp [expectedDelay, h2]

theorem typewriter_delay_witness :
    [lit "Hi", lit "Yo"] ≠ [] ∧ (∀ w ∈ [lit "Hi", lit "Yo"], w ≠ []) ∧
      (ticks [lit "Hi", lit "Yo"] 2 (initTypewriter [])).map (fun t => t.typeSpeed) =
        some 1500 ∧
      (ticks [lit "Hi", lit "Yo"] 4 (initTypewriter [])).map (fun t => t.typeSpeed) =
        some 500 ∧
      ∃ tw next : Typewriter, ticks [lit "Hi", lit "Yo"] 3 (initTypewriter []) = some tw ∧
        type [lit "Hi", lit "Yo"] tw = some next := by
  obtain ⟨tw, next, w, h1, -, h3, -⟩ :=
    typewriter_delay [lit "Hi", lit "Yo"] (by decide) (by decide) [] 3
  exact ⟨by decide, by decide, by decide, by decide, tw, next, h1, h3⟩

/-! ## The stats counter -/

theorem animateStats_of_latched (statsNumbers : List Int) (ev : ScrollEvent)
    (st : StatsCounter) (h : st.hasAnimated = true) : animateStats statsNumbers ev st = st := by
  unfold animateStats
  rw [if_pos h]

theorem stat_rampTick (r : Ramp) : (rampTick r).stat = r.stat := by
  unfold rampTick
  split
  · rfl
  · simp only
    split <;> rfl

theorem map_stat_modify (l : List Ramp) (k : Nat) :
    (l.modify rampTick k).map (fun r => r.stat) = l.map (fun r => r.stat) := by
  induction l generalizing k with
  | nil => simp
  | cons r rs ih =>
    cases k with
    | zero => simp [stat_rampTick]
    | succ k => simp [ih]

theorem map_stat_started (statsNumbers : List Int) :
    (statsNumbers.enum.map (fun it => startRamp it.1 it.2)).map (fun r => r.stat) =
      List.range statsNumbers.length := by
  rw [List.map_map, ← List.enum_map_fst]
  rfl

theorem animateStats_of_trigger (statsNumbers : List Int) (ev : ScrollEvent)
    (st : StatsCounter) (hl : st.hasAnimated = false) (ht : inTriggerRange ev = true) :
    animateStats statsNumbers ev st =
      { hasAnimated := true
        ramps := st.ramps ++ statsNumbers.enum.map (fun it => startRamp it.1 it.2) } := by
  unfold animateStats
  rw [hl, if_neg Bool.false_ne_true, if_pos ht]

theorem animateStats_of_no_trigger (statsNumbers : List Int) (ev : ScrollEvent)
    (st : StatsCounter) (ht : inTriggerRange ev = false) :
    animateStats statsNumbers ev st = st := by
  unfold animateStats
  rw [ht]
  simp

theorem latchInv_step (statsNumbers : List Int) (st : StatsCounter) (s : StatsStep)
    (hinv : LatchInv statsNumbers st) :
    LatchInv statsNumbers (statsStep statsNumbers st s) ∧
      (statsStep statsNumbers st s).hasAnimated = (st.hasAnimated || someTrigger [s]) := by
  unfold LatchInv at hinv ⊢
  cases s with
  | fire k =>
    simp only [statsStep, map_stat_modify, someTrigger, List.any_cons, List.any_nil,
      Bool.or_false]
    exact ⟨hinv, trivial⟩
  | scroll ev =>
    simp only [statsStep, someTrigger, List.any_cons, List.any_nil, Bool.or_false]
    cases hl : st.hasAnimated with
    | true =>
      simp only [animateStats_of_latched statsNumbers ev st hl, hl]
      rw [hl] at hinv
      exact ⟨hinv, rfl⟩
    | false =>
      rw [hl] at hinv
      simp only [Bool.false_eq_true, if_false, List.map_eq_nil_iff] at hinv
      cases ht : inTriggerRange ev with
      | true =>
        simp only [animateStats_of_trigger statsNumbers ev st hl ht, hinv, List.nil_append,
          map_stat_started, if_true, Bool.or_true, and_self]
      | false =>
        simp only [animateStats_of_no_trigger statsNumbers ev st ht, hl]
        simp [hinv]

theorem someTrigger_cons (s : StatsStep) (steps : List StatsStep) :
    someTrigger (s :: steps) = (someTrigger [s] || someTrigger steps) := by
  simp [someTrigger]

theorem latchInv_run (statsNumbers : List Int) (steps : List StatsStep) (st : StatsCounter)
    (hinv : LatchInv statsNumbers st) :
    LatchInv statsNumbers (statsRun statsNumbers st steps) ∧
      (statsRun statsNumbers st steps).hasAnimated = (st.hasAnimated || someTrigger steps) := by
  induction steps generalizing st with
  | nil => exact ⟨hinv, by simp [statsRun, someTrigger]⟩
  | cons s steps ih =>
    obtain ⟨h1, h2⟩ := latchInv_step statsNumbers st s hinv
    obtain ⟨i1, i2⟩ := ih (statsStep statsNumbers st s) h1
    refine ⟨i1, ?_⟩
    rw [someTrigger_cons, ← Bool.or_assoc, ← h2]
    exact i2

/-- C16: over any sequence of scroll events and interval firings the ramp is started at most
once per stat element, exactly once per stat element when some scroll event was in the trigger
range and not at all otherwise, and a call of `animateStats` with the latch set changes
nothing. -/
theorem stats_latch_one_shot (statsNumbers : List Int) (steps : List StatsStep) :
    (∀ i, startedFor (statsRun statsNumbers initStatsCounter steps) i ≤ 1) ∧
      (someTrigger steps = true → ∀ i, i < statsNumbers.length →
        startedFor (statsRun statsNumbers initStatsCounter steps) i = 1) ∧
      (someTrigger steps = false →
        (statsRun statsNumbers initStatsCounter steps).ramps = []) ∧
      (statsRun statsNumbers initStatsCounter steps).hasAnimated = someTrigger steps ∧
      (∀ (ev : ScrollEvent) (st : StatsCounter), st.hasAnimated = true →
        animateStats statsNumbers ev st = st) := by
  obtain ⟨hinv, hlatch⟩ := latchInv_run statsNumbers steps initStatsCounter rfl
  have hlatch' : (statsRun statsNumbers initStatsCounter steps).hasAnimated =
      someTrigger steps := by simpa [initStatsCounter] using hlatch
  unfold LatchInv at hinv
  rw [hlatch'] at hinv
  refine ⟨fun i => ?_, fun ht i hi => ?_, fun ht => ?_, hlatch',
    fun ev st h => animateStats_of_latched statsNumbers ev st h⟩
  · unfold startedFor
    rw [hinv]
    split
    · exact List.nodup_iff_count_le_one.mp (List.nodup_range _) i
    · simp
  · unfold startedFor
    rw [hinv, if_pos ht]
    exact List.count_eq_one_of_mem (List.nodup_range _) (List.mem_range.mpr hi)
  · rw [ht] at hinv
    simpa using hinv

theorem stats_latch_one_shot_witness :
    someTrigger [.scroll ⟨0, 800, 1000, 600⟩, .scroll ⟨500, 800, 1000, 600⟩, .fire 0,
        .scroll ⟨600, 800, 1000, 600⟩] = true ∧
      startedFor (statsRun [7, 50] initStatsCounter
        [.scroll ⟨0, 800, 1000, 600⟩, .scroll ⟨500, 800, 1000, 600⟩, .fire 0,
          .scroll ⟨600, 800, 1000, 600⟩]) 1 = 1 :=
  ⟨by decide,
    (stats_latch_one_shot [7, 50] [.scroll ⟨0, 800, 1000, 600⟩,
      .scroll ⟨500, 800, 1000, 600⟩, .fire 0, .scroll ⟨600, 800, 1000, 600⟩]).2.1
      (by decide) 1 (by decide)⟩

/-- C17, refuted as stated: with the latch unset and `scrollY + innerHeight` past the section's
top, a scroll position below the section's bottom edge starts nothing. -/
theorem animateStats_skips_below_section :
    initStatsCounter.hasAnimated = false ∧ ((5000 : Int) + 800 > 1000) ∧
      animateStats [7, 50] ⟨5000, 800, 1000, 600⟩ initStatsCounter = initStatsCounter := by
  decide

/-- C17, amended: with the latch unset and `scrollY + innerHeight` past the section's top, the
handler sets the latch and starts one ramp per stat element when `scrollY` is above the
section's bottom edge, and does nothing when it is not. -/
theorem animateStats_triggers_in_range (statsNumbers : List Int) (ev : ScrollEvent)
    (st : StatsCounter) (hl : st.hasAnimated = false)
    (hc : ev.scrollY + ev.innerHeight > ev.offsetTop) :
    (ev.scrollY < ev.offsetTop + ev.offsetHeight →
        (animateStats statsNumbers ev st).hasAnimated = true ∧
        (animateStats statsNumbers ev st).ramps =
          st.ramps ++ statsNumbers.enum.map (fun it => startRamp it.1 it.2)) ∧
      (¬ ev.scrollY < ev.offsetTop + ev.offsetHeight →
        animateStats statsNumbers ev st = st) := by
  unfold animateStats
  rw [hl]
  simp only [Bool.false_eq_true, if_false]
  constructor
  · intro hb
    have : inTriggerRange ev = true := by simp [inTriggerRange, hc, hb]
    rw [if_pos this]
    exact ⟨rfl, rfl⟩
  · intro hb
    have : ¬ inTriggerRange ev = true := by simp [inTriggerRange, hb]
    rw [if_neg this]

theorem animateStats_triggers_in_range_witness :
    initStatsCounter.hasAnimated = false ∧ ((500 : Int) + 800 > 1000) ∧
      ((500 : Int) < 1000 + 600) ∧
      (animateStats [7, 50] ⟨500, 800, 1000, 600⟩ initStatsCounter).hasAnimated = true :=
  ⟨rfl, by decide, by decide,
    ((animateStats_triggers_in_range [7, 50] ⟨500, 800, 1000, 600⟩ initStatsCounter rfl
      (by decide)).1 (by decide)).1⟩

theorem rampTicks_succ (n : Nat) (r : Ramp) :
    rampTicks (n + 1) r = rampTick (rampTicks n r) := by
  induction n generalizing r with
  | zero => rfl
  | succ n ih =>
    rw [rampTicks, ih (rampTick r)]
    rfl

/-! ## Storage wrappers -/

theorem tryCatch_ok {ε α : Type} (body : Except ε α) (handler : ε → α) :
    ∃ r, (tryCatch body (fun e => (pure (handler e) : Except ε α))) = .ok r := by
  cases body with
  | ok a => exact ⟨a, rfl⟩
  | error e => exact ⟨handler e, rfl⟩

/-- C19: the storage wrappers never throw. `setLocal` gives true when `setItem` succeeds and
false when it throws; `getLocal` gives the default value when the store throws, when nothing
is stored under the key and when the stored text does not parse; `removeLocal` and `clearLocal`
return normally, also when the store throws. -/
theorem storage_wrappers_never_throw {σ ε ν : Type} (S : Storage σ ε) (J : Json ν ε)
    (key : JSString) (value defaultValue : ν) (env : StorageEnv σ ε) :
    (∃ r, setLocal S J key value env = .ok r) ∧
      (∀ text store, J.stringify value = .ok text → S.setItem env.store key text = .ok store →
        setLocal S J key value env = .ok (true, { env with store := store })) ∧
      (∀ text e, J.stringify value = .ok text → S.setItem env.store key text = .error e →
        setLocal S J key value env =
          .ok (false, consoleWarn (lit "Could not save to localStorage:") e env)) ∧
      (∃ r, getLocal S J key defaultValue env = .ok r) ∧
      (∀ e, S.getItem env.store key = .error e →
        getLocal S J key defaultValue env =
          .ok (defaultValue, consoleWarn (lit "Could not read from localStorage:") e env)) ∧
      (S.getItem env.store key = .ok none →
        getLocal S J key defaultValue env = .ok (defaultValue, env)) ∧
      (∀ text e, S.getItem env.store key = .ok (some text) → J.parse text = .error e →
        ∃ env', getLocal S J key defaultValue env = .ok (defaultValue, env')) ∧
      (∃ r, removeLocal S key env = .ok r) ∧
      (∀ e, S.removeItem env.store key = .error e →
        removeLocal S key env =
          .ok (consoleWarn (lit "Could not remove from localStorage:") e env)) ∧
      (∃ r, clearLocal S env = .ok r) ∧
      (∀ e, S.clear env.store = .error e →
        clearLocal S env = .ok (consoleWarn (lit "Could not clear localStorage:") e env)) := by
  refine ⟨tryCatch_ok _ _, ?_, ?_, tryCatch_ok _ _, ?_, ?_, ?_, tryCatch_ok _ _, ?_,
    tryCatch_ok _ _, ?_⟩
  · intro text store h1 h2
    unfold setLocal
    rw [h1]
    show tryCatch (do let store ← S.setItem env.store key text; pure (true, _)) _ = _
    rw [h2]
    rfl
  · intro text e h1 h2
    unfold setLocal
    rw [h1]
    show tryCatch (do let store ← S.setItem env.store key text; pure (true, _)) _ = _
    rw [h2]
    rfl
  · intro e h
    unfold getLocal
    rw [h]
    rfl
  · intro h
    unfold getLocal
    rw [h]
    rfl
  · intro text e h1 h2
    unfold getLocal
    rw [h1]
    by_cases ht : text.isEmpty = true
    · refine ⟨env, ?_⟩
      show tryCatch (if text.isEmpty = true then _ else _) _ = _
      rw [if_pos ht]
      rfl
    · refine ⟨consoleWarn (lit "Could not read from localStorage:") e env, ?_⟩
      show tryCatch (if text.isEmpty = true then _ else _) _ = _
      rw [if_neg ht, h2]
      rfl
  · intro e h
    unfold removeLocal
    rw [h]
    rfl
  · intro e h
    unfold clearLocal
    rw [h]
    rfl

theorem storage_wrappers_never_throw_witness :
    sampleJson.stringify true = .ok (lit "true") ∧
      sampleStorage.setItem (false, [(lit "a", lit "1"), (lit "b", lit "2")]) (lit "k")
          (lit "true") = .error (lit "QuotaExceededError") ∧
      setLocal sampleStorage sampleJson (lit "k") true
          ⟨(false, [(lit "a", lit "1"), (lit "b", lit "2")]), []⟩ =
        .ok (false, consoleWarn (lit "Could not save to localStorage:")
          (lit "QuotaExceededError") ⟨(false, [(lit "a", lit "1"), (lit "b", lit "2")]), []⟩) :=
  ⟨rfl, rfl,
    (storage_wrappers_never_throw sampleStorage sampleJson (lit "k") true false
      ⟨(false, [(lit "a", lit "1"), (lit "b", lit "2")]), []⟩).2.2.1
      (lit "true") (lit "QuotaExceededError") rfl rfl⟩

/-! ## Scroll animations -/

theorem mem_classListAdd (classList : List JSString) (name : JSString) :
    name ∈ classListAdd classList name := by
  unfold classListAdd
  split
  · assumption
  · simp

/-- C20: whatever the `data-aos` attribute is, the state applied when the delay has elapsed has
opacity `1`, an identity transform and the class `aos-animate`; a kind that is missing or not
recognised gives the state `fade-up` gives; a missing delay is 0 and a missing duration is
600 ms. -/
theorem animateElement_terminal_state (el : AosElement) :
    (animated el).opacity = lit "1" ∧
      (animated el).transform ∈ identityTransforms ∧
      lit "aos-animate" ∈ (animated el).classList ∧
      ((∀ k ∈ recognisedKinds, el.dataAos ≠ some k) →
        animated el =
          { animated { el with dataAos := some (lit "fade-up") } with dataAos := el.dataAos }) ∧
      (el.dataAosDelay = none → (animateElement el).delay = .number 0) ∧
      (el.dataAosDuration = none →
        (animateElement el).duration = .number 600 ∧
        (animated el).transition = lit "all 600ms cubic-bezier(0.4, 0, 0.2, 1)") := by
  refine ⟨?_, ?_, ?_, ?_, ?_, ?_⟩
  · simp only [animated, aosCallback]
    split_ifs <;> rfl
  · simp only [animated, aosCallback]
    split_ifs <;> dsimp only <;> decide
  · simp only [animated, aosCallback]
    exact mem_classListAdd _ _
  · intro h
    have h1 := h (lit "fade-up") (by decide)
    have h2 := h (lit "fade-down") (by decide)
    have h3 := h (lit "fade-left") (by decide)
    have h4 := h (lit "fade-right") (by decide)
    have h5 := h (lit "zoom-in") (by decide)
    have h6 := h (lit "flip-left") (by decide)
    have h7 := h (lit "slide-up") (by decide)
    simp only [animated, aosCallback, animateElement, h1, h2, h3, h4, h5, h6, h7, if_false,
      if_true]
  · intro h
    simp only [animateElement, h, orNumber]
  · intro h
    refine ⟨by simp only [animateElement, h, orNumber], ?_⟩
    simp only [animated, aosCallback, animateElement, h, orNumber]
    split_ifs <;> dsimp only <;> decide

theorem animateElement_terminal_state_witness :
    (∀ k ∈ recognisedKinds, (sampleElement (some (lit "bounce")) none none).dataAos ≠ some k) ∧
      animated (sampleElement (some (lit "bounce")) none none) =
        { dataAos := some (lit "bounce"), dataAosDelay := none, dataAosDuration := none,
          transition := lit "all 600ms cubic-bezier(0.4, 0, 0.2, 1)", opacity := lit "1",
          transform := lit "translateY(0)", classList := [lit "card", lit "aos-animate"] } ∧
      (animated (sampleElement (some (lit "bounce")) none none)).opacity = lit "1" :=
  ⟨by decide, by decide,
    (animateElement_terminal_state (sampleElement (some (lit "bounce")) none none)).1⟩

/-! ## Floating elements -/

theorem ratClamp_bounds (v : ℚ) : 0 ≤ ratMax 0 (ratMin 100 v) ∧ ratMax 0 (ratMin 100 v) ≤ 100 := by
  unfold ratMax ratMin
  split_ifs <;> constructor <;> linarith

theorem floatStep_x (item : FloatingItem) :
    (floatStep item).x = ratMax 0 (ratMin 100 (item.x + item.speedX)) := by
  unfold floatStep
  simp only
  split_ifs <;> rfl

theorem floatStep_y (item : FloatingItem) :
    (floatStep item).y = ratMax 0 (ratMin 100 (item.y + item.speedY)) := by
  unfold floatStep
  simp only
  split_ifs <;> rfl

theorem floatStep_speedX (item : FloatingItem) :
    (floatStep item).speedX = item.speedX ∨ (floatStep item).speedX = -item.speedX := by
  unfold floatStep
  simp only
  split_ifs
  all_goals first
    | exact Or.inl rfl
    | exact Or.inr (by simp)

theorem floatStep_speedY (item : FloatingItem) :
    (floatStep item).speedY = item.speedY ∨ (floatStep item).speedY = -item.speedY := by
  unfold floatStep
  simp only
  split_ifs
  all_goals first
    | exact Or.inl rfl
    | exact Or.inr (by simp)

theorem floatStep_style (item : FloatingItem) :
    (floatStep item).left = (floatStep item).x ∧ (floatStep item).top = (floatStep item).y := by
  unfold floatStep
  simp only
  exact ⟨trivial, trivial⟩

theorem animateFrames_succ (n : Nat) (elements : List FloatingItem) :
    animateFrames (n + 1) elements = animateFrame (animateFrames n elements) := by
  induction n generalizing elements with
  | zero => rfl
  | succ n ih =>
    rw [animateFrames, ih (animateFrame elements)]
    rfl

theorem animateFrames_speeds (n : Nat) (elements : List FloatingItem) :
    (animateFrames n elements).map (fun item => (|item.speedX|, |item.speedY|)) =
      elements.map (fun item => (|item.speedX|, |item.speedY|)) := by
  induction n with
  | zero => rfl
  | succ n ih =>
    rw [animateFrames_succ, animateFrame, List.map_map, ← ih]
    apply List.map_congr_left
    intro item _
    simp only [Function.comp]
    rcases floatStep_speedX item with hx | hx <;> rcases floatStep_speedY item with hy | hy <;>
      simp [hx, hy]

/-- C23: after every animation tick the `x` and `y` of every floating element lie between 0
and 100, and a tick leaves each speed as it is or negates it, so the absolute values of the
speeds never change. -/
theorem floating_elements_stay_in_bounds (item : FloatingItem) (n : Nat)
    (elements : List FloatingItem) :
    (0 ≤ (floatStep item).x ∧ (floatStep item).x ≤ 100) ∧
      (0 ≤ (floatStep item).y ∧ (floatStep item).y ≤ 100) ∧
      ((floatStep item).speedX = item.speedX ∨ (floatStep item).speedX = -item.speedX) ∧
      ((floatStep item).speedY = item.speedY ∨ (floatStep item).speedY = -item.speedY) ∧
      |(floatStep item).speedX| = |item.speedX| ∧
      |(floatStep item).speedY| = |item.speedY| ∧
      (∀ it ∈ animateFrames (n + 1) elements,
        0 ≤ it.x ∧ it.x ≤ 100 ∧ 0 ≤ it.y ∧ it.y ≤ 100 ∧ it.left = it.x ∧ it.top = it.y) ∧
      (animateFrames n elements).map (fun it => (|it.speedX|, |it.speedY|)) =
        elements.map (fun it => (|it.speedX|, |it.speedY|)) := by
  refine ⟨?_, ?_, floatStep_speedX item, floatStep_speedY item, ?_, ?_, ?_,
    animateFrames_speeds n elements⟩
  · rw [floatStep_x]
    exact ratClamp_bounds _
  · rw [floatStep_y]
    exact ratClamp_bounds _
  · rcases floatStep_speedX item with h | h <;> simp [h]
  · rcases floatStep_speedY item with h | h <;> simp [h]
  · intro it hit
    rw [animateFrames_succ, animateFrame, List.mem_map] at hit
    obtain ⟨src, -, rfl⟩ := hit
    have hx := ratClamp_bounds (src.x + src.speedX)
    have hy := ratClamp_bounds (src.y + src.speedY)
    rw [← floatStep_x] at hx
    rw [← floatStep_y] at hy
    exact ⟨hx.1, hx.2, hy.1, hy.2, (floatStep_style src).1, (floatStep_style src).2⟩

/-! ## Repeated visibility signals -/

theorem classListAdd_idem (classList : List JSString) (name : JSString) :
    classListAdd (classListAdd classList name) name = classListAdd classList name := by
  have h := mem_classListAdd classList name
  generalize classListAdd classList name = added at h
  unfold classListAdd
  rw [if_pos h]

theorem aosCallback_idem (t : AosTimeout) (el : AosElement) :
    aosCallback t (aosCallback t el) = aosCallback t el := by
  simp only [aosCallback]
  split_ifs <;> simp only [classListAdd_idem]

theorem animateElement_animated (el : AosElement) :
    animateElement (animated el) = animateElement el := by
  simp only [animated, aosCallback, animateElement]
  split_ifs <;> rfl

theorem observerCallback_single (p : AosPage) (i : Nat) (el : AosElement)
    (h : p.elements.get? i = some el) :
    observerCallback [⟨i, true⟩] p =
      { p with timeouts := p.timeouts ++ [(i, animateElement el)] } := by
  simp only [observerCallback, List.foldl_cons, List.foldl_nil, if_true, h]

/-- C21, refuted as stated: an element that has been animated and carries the class
`aos-animate` gets a further timeout from a second intersecting entry. -/
theorem second_signal_sets_timeout :
    (fireTimeout 0 (observerCallback [⟨0, true⟩]
        ⟨[sampleElement (some (lit "fade-up")) none none], []⟩)) =
      ⟨[animated (sampleElement (some (lit "fade-up")) none none)], []⟩ ∧
    lit "aos-animate" ∈ (animated (sampleElement (some (lit "fade-up")) none none)).classList ∧
    (observerCallback [⟨0, true⟩] (fireTimeout 0 (observerCallback [⟨0, true⟩]
        ⟨[sampleElement (some (lit "fade-up")) none none], []⟩))).timeouts =
      [(0, ⟨some (lit "fade-up"), .number 0, .number 600⟩)] := by
  decide

/-! ## Number formatting -/

theorem digitChar_isDigit (m : Nat) (h : m < 10) : isDigit (Nat.digitChar m).toNat = true := by
  interval_cases m <;> decide

theorem toDigitsCore_isDigit (fuel n : Nat) (ds : List Char)
    (hds : ∀ c ∈ ds, isDigit c.toNat = true) :
    ∀ c ∈ Nat.toDigitsCore 10 fuel n ds, isDigit c.toNat = true := by
  induction fuel generalizing n ds with
  | zero => simpa [Nat.toDigitsCore] using hds
  | succ fuel ih =>
    have hd : ∀ c ∈ Nat.digitChar (n % 10) :: ds, isDigit c.toNat = true := by
      intro c hc
      rcases List.mem_cons.mp hc with rfl | hc
      · exact digitChar_isDigit _ (Nat.mod_lt _ (by decide))
      · exact hds c hc
    simp only [Nat.toDigitsCore]
    split
    · exact hd
    · exact ih _ _ hd

theorem toDigitsCore_ne_nil (fuel n : Nat) (ds : List Char) (h : fuel ≠ 0 ∨ ds ≠ []) :
    Nat.toDigitsCore 10 fuel n ds ≠ [] := by
  induction fuel generalizing n ds with
  | zero =>
    rcases h with h | h
    · exact absurd rfl h
    · simpa [Nat.toDigitsCore] using h
  | succ fuel ih =>
    simp only [Nat.toDigitsCore]
    split
    · simp
    · exact ih _ _ (Or.inr (by simp))

theorem decimalDigits_isDigitString (n : Nat) : IsDigitString (decimalDigits n) := by
  unfold IsDigitString decimalDigits Nat.toDigits
  constructor
  · intro h
    exact toDigitsCore_ne_nil (n + 1) n [] (Or.inl (Nat.succ_ne_zero n)) (List.map_eq_nil_iff.mp h)
  · intro c hc
    obtain ⟨ch, hch, rfl⟩ := List.mem_map.mp hc
    exact toDigitsCore_isDigit (n + 1) n [] (by simp) ch hch

theorem isWordChar_of_isDigit {c : Nat} (h : isDigit c = true) : isWordChar c = true := by
  simp only [isDigit, Bool.and_eq_true, decide_eq_true_eq] at h
  simp only [isWordChar, Bool.or_eq_true, Bool.and_eq_true, decide_eq_true_eq, beq_iff_eq]
  omega

theorem ne_comma_of_isDigit {c : Nat} (h : isDigit c = true) : c ≠ 0x2C := by
  simp only [isDigit, Bool.and_eq_true, decide_eq_true_eq] at h
  omega

theorem groupsOfThreeAhead_digits (n : Nat) (s : JSString) (hlen : s.length ≤ n)
    (hs : ∀ c ∈ s, isDigit c = true) :
    groupsOfThreeAhead s = decide (0 < s.length ∧ s.length % 3 = 0) := by
  induction n using Nat.strong_induction_on generalizing s with
  | _ n ih =>
    match s, hlen, hs with
    | [], _, _ => rfl
    | [_], _, _ => rfl
    | [_, _], _, _ => rfl
    | a :: b :: c :: rest, hlen, hs =>
      have ha := hs a (by simp)
      have hb := hs b (by simp)
      have hc := hs c (by simp)
      have hrest : ∀ x ∈ rest, isDigit x = true := fun x hx => hs x (by simp [hx])
      simp only [List.length_cons] at hlen
      have ihr := ih rest.length (by omega) rest (le_refl _) hrest
      simp only [groupsOfThreeAhead, ha, hb, hc, Bool.true_and, ihr, List.length_cons]
      cases rest with
      | nil => simp [notDigitNext]
      | cons d r =>
        have hd := hrest d (by simp)
        simp only [notDigitNext, hd, Bool.not_true, Bool.or_false, List.length_cons]
        congr 1
        apply propext
        constructor
        · rintro ⟨-, h⟩
          exact ⟨by omega, by omega⟩
        · rintro ⟨-, h⟩
          exact ⟨by omega, by omega⟩

theorem insertCommas_skip (before : Option Nat) (x : Nat) (rest : JSString)
    (hs : ∀ c ∈ x :: rest, isDigit c = true) (hmod : (x :: rest).length % 3 ≠ 0) :
    insertCommas before (x :: rest) = x :: insertCommas (some x) rest := by
  have hg := groupsOfThreeAhead_digits _ (x :: rest) (le_refl _) hs
  have hfalse : groupsOfThreeAhead (x :: rest) = false := by
    rw [hg, decide_eq_false_iff_not]
    exact fun h => hmod h.2
  simp only [insertCommas, hfalse, Bool.and_false, Bool.false_eq_true, if_false, List.nil_append]

theorem insertCommas_first (x : Nat) (rest : JSString) (hx : isDigit x = true) :
    insertCommas none (x :: rest) = x :: insertCommas (some x) rest := by
  have hw := isWordChar_of_isDigit hx
  simp [insertCommas, notWordBoundary, isWordAt, hw]

theorem insertCommas_comma (d x : Nat) (rest : JSString) (hd : isDigit d = true)
    (hs : ∀ c ∈ x :: rest, isDigit c = true) (hmod : (x :: rest).length % 3 = 0) :
    insertCommas (some d) (x :: rest) = 0x2C :: x :: insertCommas (some x) rest := by
  have hg := groupsOfThreeAhead_digits _ (x :: rest) (le_refl _) hs
  have htrue : groupsOfThreeAhead (x :: rest) = true := by
    rw [hg, decide_eq_true_eq]
    exact ⟨Nat.succ_pos _, hmod⟩
  have hwd := isWordChar_of_isDigit hd
  have hwx := isWordChar_of_isDigit (hs x (by simp))
  simp [insertCommas, notWordBoundary, isWordAt, hwd, hwx, htrue, lit]

theorem insertCommas_end (before : Option Nat) : insertCommas before [] = [] := by
  simp [insertCommas, groupsOfThreeAhead]

theorem insertCommas_chunks (n : Nat) (d : Nat) (r : JSString) (hlen : r.length ≤ n)
    (hd : isDigit d = true) (hr : ∀ c ∈ r, isDigit c = true) (hmod : r.length % 3 = 0) :
    insertCommas (some d) r = ((chunksOfThree r).map (fun g => 0x2C :: g)).flatten := by
  induction n using Nat.strong_induction_on generalizing d r with
  | _ n ih =>
    match r, hlen, hr, hmod with
    | [], _, _, _ => simp [insertCommas_end, chunksOfThree]
    | [_], _, _, hmod => simp at hmod
    | [_, _], _, _, hmod => simp at hmod
    | a :: b :: c :: rest, hlen, hr, hmod =>
      simp only [List.length_cons] at hlen hmod
      have hc := hr c (by simp)
      have hrest : ∀ x ∈ rest, isDigit x = true := fun x hx => hr x (by simp [hx])
      have hbc : ∀ x ∈ b :: c :: rest, isDigit x = true := fun x hx =>
        hr x (List.mem_cons_of_mem _ hx)
      have hcr : ∀ x ∈ c :: rest, isDigit x = true := fun x hx =>
        hbc x (List.mem_cons_of_mem _ hx)
      rw [insertCommas_comma d a _ hd hr (by simp only [List.length_cons]; omega),
        insertCommas_skip (some a) b _ hbc (by simp only [List.length_cons]; omega),
        insertCommas_skip (some b) c _ hcr (by simp only [List.length_cons]; omega),
        ih rest.length (by omega) c rest (le_refl _) hc hrest (by omega)]
      simp [chunksOfThree]

theorem join_comma_cons (first : JSString) (others : List JSString) :
    join (lit ",") (first :: others) = first ++ (others.map (fun g => 0x2C :: g)).flatten := by
  induction others generalizing first with
  | nil => simp [join, List.intercalate]
  | cons g gs ih =>
    have h := ih g
    simp only [join, List.intercalate] at h ⊢
    simp only [List.intersperse_cons₂, List.flatten_cons, h, List.map_cons]
    simp [lit]

theorem flatten_chunksOfThree (n : Nat) (r : JSString) (hlen : r.length ≤ n) :
    (chunksOfThree r).flatten = r := by
  induction n using Nat.strong_induction_on generalizing r with
  | _ n ih =>
    match r, hlen with
    | [], _ => rfl
    | [_], _ => rfl
    | [_, _], _ => rfl
    | a :: b :: c :: rest, hlen =>
      simp only [List.length_cons] at hlen
      simp [chunksOfThree, ih rest.length (by omega) rest (le_refl _)]

theorem length_chunksOfThree (n : Nat) (r : JSString) (hlen : r.length ≤ n)
    (hmod : r.length % 3 = 0) : ∀ g ∈ chunksOfThree r, g.length = 3 := by
  induction n using Nat.strong_induction_on generalizing r with
  | _ n ih =>
    match r, hlen, hmod with
    | [], _, _ => simp [chunksOfThree]
    | [_], _, hmod => simp at hmod
    | [_, _], _, hmod => simp at hmod
    | a :: b :: c :: rest, hlen, hmod =>
      simp only [List.length_cons] at hlen hmod
      intro g hg
      simp only [chunksOfThree, List.mem_cons] at hg
      rcases hg with rfl | hg
      · rfl
      · exact ih rest.length (by omega) rest (le_refl _) (by omega) g hg

theorem filter_insertCommas (before : Option Nat) (s : JSString) :
    (insertCommas before s).filter (fun c => decide (c ≠ 0x2C)) =
      s.filter (fun c => decide (c ≠ 0x2C)) := by
  induction s generalizing before with
  | nil => simp [insertCommas_end]
  | cons c rest ih =>
    simp only [insertCommas, List.filter_append]
    have hpre : ∀ b : Bool, (if b = true then lit "," else []).filter
        (fun c => decide (c ≠ 0x2C)) = [] := by
      intro b
      cases b <;> simp [lit]
    rw [hpre, List.nil_append, List.filter_cons, List.filter_cons, ih]

theorem insertCommas_head (ds : JSString) (h : IsDigitString ds) :
    insertCommas none ds =
      ds.take ((ds.length - 1) % 3 + 1) ++
        ((chunksOfThree (ds.drop ((ds.length - 1) % 3 + 1))).map (fun g => 0x2C :: g)).flatten := by
  obtain ⟨hne, hd⟩ := h
  match ds, hne, hd with
  | [], hne, _ => exact absurd rfl hne
  | a :: rest, _, hd =>
    have ha := hd a (by simp)
    have hrest : ∀ x ∈ rest, isDigit x = true := fun x hx => hd x (List.mem_cons_of_mem _ hx)
    rw [insertCommas_first a rest ha]
    simp only [List.length_cons, Nat.add_sub_cancel]
    have hcases : rest.length % 3 = 0 ∨ rest.length % 3 = 1 ∨ rest.length % 3 = 2 := by omega
    rcases hcases with h0 | h1 | h2
    · rw [h0, insertCommas_chunks _ a rest (le_refl _) ha hrest h0]
      simp
    · match rest, hrest, h1 with
      | [], _, h1 => simp at h1
      | b :: r2, hrest, h1 =>
        simp only [List.length_cons] at h1
        have hb := hrest b (by simp)
        have hr2 : ∀ x ∈ r2, isDigit x = true := fun x hx =>
          hrest x (List.mem_cons_of_mem _ hx)
        rw [insertCommas_skip (some a) b r2 hrest (by simp only [List.length_cons]; omega),
          insertCommas_chunks _ b r2 (le_refl _) hb hr2 (by omega)]
        simp only [List.length_cons, h1]
        simp
    · match rest, hrest, h2 with
      | [], _, h2 => simp at h2
      | [_], _, h2 => simp at h2
      | b :: c :: r3, hrest, h2 =>
        simp only [List.length_cons] at h2
        have hc := hrest c (by simp)
        have hcr : ∀ x ∈ c :: r3, isDigit x = true := fun x hx =>
          hrest x (List.mem_cons_of_mem _ hx)
        have hr3 : ∀ x ∈ r3, isDigit x = true := fun x hx =>
          hcr x (List.mem_cons_of_mem _ hx)
        rw [insertCommas_skip (some a) b _ hrest (by simp only [List.length_cons]; omega),
          insertCommas_skip (some b) c _ hcr (by simp only [List.length_cons]; omega),
          insertCommas_chunks _ c r3 (le_refl _) hc hr3 (by omega)]
        simp only [List.length_cons, h2]
        simp

/-- What `replace` does to a string of digits: the groups joined by commas. -/
theorem insertCommas_digits (ds : JSString) (h : IsDigitString ds) :
    insertCommas none ds = join (lit ",") (digitGroups ds) ∧
      (insertCommas none ds).filter (fun c => decide (c ≠ 0x2C)) = ds ∧
      (digitGroups ds).flatten = ds ∧
      1 ≤ (ds.take ((ds.length - 1) % 3 + 1)).length ∧
      (ds.take ((ds.length - 1) % 3 + 1)).length ≤ 3 ∧
      ∀ g ∈ chunksOfThree (ds.drop ((ds.length - 1) % 3 + 1)), g.length = 3 := by
  have hpos : 0 < ds.length := List.length_pos.mpr h.1
  refine ⟨?_, ?_, ?_, ?_, ?_, ?_⟩
  · rw [digitGroups, join_comma_cons]
    exact insertCommas_head ds h
  · rw [filter_insertCommas, List.filter_eq_self]
    intro c hc
    simpa using ne_comma_of_isDigit (h.2 c hc)
  · rw [digitGroups, List.flatten_cons, flatten_chunksOfThree _ _ (le_refl _),
      List.take_append_drop]
  · rw [List.length_take]
    omega
  · rw [List.length_take]
    omega
  · apply length_chunksOfThree _ _ (le_refl _)
    rw [List.length_drop]
    omega

theorem numberToString_of_safe (beyond : Nat → JSString) (n : Nat) (h : n ≤ maxSafeInteger) :
    numberToString beyond n = decimalDigits n := by
  unfold numberToString
  rw [if_pos h]

/-- C22, refuted as stated: `1e21` is a non-negative integer and prints as `1e+21`, in which
the pattern finds no place for a comma; the result is not the decimal digits of the number
with commas. -/
theorem formatWithCommas_exponent_form :
    formatWithCommas sampleBeyond (10 ^ 21) = lit "1e+21" ∧
      (formatWithCommas sampleBeyond (10 ^ 21)).filter (fun c => decide (c ≠ 0x2C)) ≠
        decimalDigits (10 ^ 21) ∧
      decimalDigits (10 ^ 21) = lit "1000000000000000000000" := by
  decide

/-- C22, amended: for every non-negative integer that prints as a plain string of digits, as
every safe integer does, `formatWithCommas` gives the digits in groups joined by commas, the
first group of one to three digits and every other group of three; removing the commas gives
the digits back; 1234567 gives `1,234,567` and 999 gives `999`. -/
theorem formatWithCommas_groups (beyond : Nat → JSString) (n : Nat)
    (h : n ≤ maxSafeInteger ∨ IsDigitString (numberToString beyond n)) :
    IsDigitString (numberToString beyond n) ∧
      (n ≤ maxSafeInteger → numberToString beyond n = decimalDigits n) ∧
      formatWithCommas beyond n = join (lit ",") (digitGroups (numberToString beyond n)) ∧
      (formatWithCommas beyond n).filter (fun c => decide (c ≠ 0x2C)) =
        numberToString beyond n ∧
      (digitGroups (numberToString beyond n)).flatten = numberToString beyond n ∧
      (∃ first others, digitGroups (numberToString beyond n) = first :: others ∧
        1 ≤ first.length ∧ first.length ≤ 3 ∧ ∀ g ∈ others, g.length = 3) ∧
      formatWithCommas beyond 1234567 = lit "1,234,567" ∧
      formatWithCommas beyond 999 = lit "999" := by
  have hdig : IsDigitString (numberToString beyond n) := by
    rcases h with h | h
    · rw [numberToString_of_safe beyond n h]
      exact decimalDigits_isDigitString n
    · exact h
  obtain ⟨h1, h2, h3, h4, h5, h6⟩ := insertCommas_digits _ hdig
  refine ⟨hdig, numberToString_of_safe beyond n, h1, h2, h3, ⟨_, _, rfl, h4, h5, h6⟩, ?_, ?_⟩
  · unfold formatWithCommas
    rw [numberToString_of_safe beyond 1234567 (by decide)]
    decide
  · unfold formatWithCommas
    rw [numberToString_of_safe beyond 999 (by decide)]
    decide

theorem formatWithCommas_groups_witness :
    (1234567 ≤ maxSafeInteger ∨ IsDigitString (numberToString sampleBeyond 1234567)) ∧
      digitGroups (numberToString sampleBeyond 1234567) = [lit "1", lit "234", lit "567"] ∧
      formatWithCommas sampleBeyond 1234567 =
        join (lit ",") (digitGroups (numberToString sampleBeyond 1234567)) :=
  ⟨Or.inl (by decide), by decide,
    (formatWithCommas_groups sampleBeyond 1234567 (Or.inl (by decide))).2.2.1⟩

/-! ## Numbers as doubles, and clamping -/

theorem bitLength_zero (fuel : Nat) : bitLength fuel 0 = 0 := by
  cases fuel <;> simp [bitLength]

theorem bitLength_spec (fuel n : Nat) (h : n ≤ fuel) :
    n < 2 ^ bitLength fuel n ∧ (n ≠ 0 → 2 ^ (bitLength fuel n - 1) ≤ n) := by
  induction fuel generalizing n with
  | zero =>
    have : n = 0 := by omega
    subst this
    simp [bitLength]
  | succ fuel ih =>
    unfold bitLength
    by_cases h0 : n = 0
    · simp [h0]
    · rw [if_neg h0]
      have hK : (2 : Nat) ^ 64 = 18446744073709551616 := by norm_num
      by_cases hbig : 2 ^ 64 ≤ n
      · rw [if_pos hbig]
        rw [hK] at hbig ⊢
        obtain ⟨i1, i2⟩ := ih (n / 18446744073709551616) (by omega)
        have hm : n / 18446744073709551616 ≠ 0 := by omega
        have i3 := i2 hm
        have hb : 1 ≤ bitLength fuel (n / 18446744073709551616) := by
          rcases Nat.eq_zero_or_pos (bitLength fuel (n / 18446744073709551616)) with hz | hz
          · rw [hz] at i1
            simp at i1
            omega
          · exact hz
        generalize bitLength fuel (n / 18446744073709551616) = b at i1 i3 hb
        have e1 : 2 ^ (b + 64) = 2 ^ b * 18446744073709551616 := by rw [pow_add, hK]
        have e2 : 2 ^ (b + 64 - 1) = 2 ^ (b - 1) * 18446744073709551616 := by
          have : b + 64 - 1 = (b - 1) + 64 := by omega
          rw [this, pow_add, hK]
        rw [e1, e2]
        generalize 2 ^ b = P at i1
        generalize 2 ^ (b - 1) = Q at i3
        constructor
        · omega
        · intro _
          omega
      · rw [if_neg hbig]
        obtain ⟨i1, i2⟩ := ih (n / 2) (by omega)
        by_cases hm : n / 2 = 0
        · have h1 : n = 1 := by omega
          subst h1
          simp [bitLength_zero]
        · have i3 := i2 hm
          have hb : 1 ≤ bitLength fuel (n / 2) := by
            rcases Nat.eq_zero_or_pos (bitLength fuel (n / 2)) with hz | hz
            · rw [hz] at i1
              simp at i1
              omega
            · exact hz
          generalize bitLength fuel (n / 2) = b at i1 i3 hb
          have e1 : 2 ^ (b + 1) = 2 ^ b * 2 := by rw [pow_succ]
          have e2 : 2 ^ b = 2 ^ (b - 1) * 2 := by
            have : b = (b - 1) + 1 := by omega
            nth_rewrite 1 [this]
            rw [pow_succ]
          constructor
          · rw [e1]
            generalize 2 ^ b = P at i1
            omega
          · intro _
            rw [Nat.add_sub_cancel, e2]
            generalize 2 ^ (b - 1) = Q at i3
            omega

theorem roundNearestEven_exact (q : Nat) (h : q < 2 ^ 53) : roundNearestEven q 0 1 = q := by
  have hb : bitLength q q ≤ 53 := by
    by_cases h0 : q = 0
    · rw [h0, bitLength_zero]
      omega
    · have h1 := (bitLength_spec q q (le_refl _)).2 h0
      have h2 : 2 ^ (bitLength q q - 1) < 2 ^ 53 := lt_of_le_of_lt h1 h
      have h3 := (Nat.pow_lt_pow_iff_right (by norm_num : 1 < 2)).mp h2
      omega
  unfold roundNearestEven
  simp [hb]

theorem roundNearestEven_saturated :
    roundNearestEven (2 ^ 53) 0 1 = 2 ^ 53 ∧ roundNearestEven (2 ^ 53 + 1) 0 1 = 2 ^ 53 := by
  decide

theorem nearestNumber_exact (z : Int) (h : z.natAbs ≤ 2 ^ 53) : nearestNumber z = z := by
  have hr : roundNearestEven z.natAbs 0 1 = z.natAbs := by
    rcases Nat.lt_or_ge z.natAbs (2 ^ 53) with hlt | hge
    · exact roundNearestEven_exact _ hlt
    · have : z.natAbs = 2 ^ 53 := le_antisymm h hge
      rw [this]
      exact roundNearestEven_saturated.1
  unfold nearestNumber
  rw [hr]
  split <;> omega

theorem clampNumber_finite (num min max : Int) :
    clampNumber (.finite num) (.finite min) (.finite max) = .finite (clamp num min max) := by
  unfold clampNumber clamp Double.max Double.min mathMax mathMin
  by_cases h1 : num < min <;> by_cases h2 : max < min <;> by_cases h3 : max < num <;>
    simp [Double.lt, h1, h2, h3]

/-- C10, refuted as stated: with the bounds given the wrong way round `clamp(5, 10, 0)` is 0,
which is below the lower bound 10, and `clamp(NaN, 0, 10)` is `NaN`, which no comparison puts
within the bounds. -/
theorem clampNumber_escapes_bounds :
    clampNumber (Double.ofInt 5) (Double.ofInt 10) (Double.ofInt 0) = Double.ofInt 0 ∧
      Double.le (Double.ofInt 10)
        (clampNumber (Double.ofInt 5) (Double.ofInt 10) (Double.ofInt 0)) = false ∧
      clampNumber .nan (Double.ofInt 0) (Double.ofInt 10) = .nan ∧
      Double.le (Double.ofInt 0) (clampNumber .nan (Double.ofInt 0) (Double.ofInt 10)) = false ∧
      Double.le (clampNumber .nan (Double.ofInt 0) (Double.ofInt 10)) (Double.ofInt 10) = false := by
  decide!

/-- C10, amended: when no input is `NaN` the result of `clamp` is at most `max`, and at least
`min` whenever `min <= max`; when an input is `NaN` the result is `NaN` and neither comparison
holds. -/
theorem clampNumber_within_bounds (num min max : Double) :
    (num ≠ .nan → min ≠ .nan → max ≠ .nan →
        Double.le (clampNumber num min max) max = true ∧
        (Double.le min max = true → Double.le min (clampNumber num min max) = true)) ∧
      (num = .nan ∨ min = .nan ∨ max = .nan →
        clampNumber num min max = .nan ∧
        Double.le min (clampNumber num min max) = false ∧
        Double.le (clampNumber num min max) max = false) := by
  constructor
  · intro h1 h2 h3
    cases num <;> cases min <;> cases max <;>
      simp_all [clampNumber, Double.max, Double.min, Double.lt, Double.le] <;>
      (try split_ifs) <;> simp_all [Double.le]
  · intro h
    cases num <;> cases min <;> cases max <;>
      simp_all [clampNumber, Double.max, Double.min, Double.lt, Double.le]

theorem clampNumber_within_bounds_witness :
    Double.finite 15 ≠ .nan ∧ Double.negInf ≠ .nan ∧ Double.finite 10 ≠ .nan ∧
      Double.le .negInf (.finite 10) = true ∧
      clampNumber (.finite 15) .negInf (.finite 10) = .finite 10 ∧
      Double.le (clampNumber (.finite 15) .negInf (.finite 10)) (.finite 10) = true ∧
      Double.le .negInf (clampNumber (.finite 15) .negInf (.finite 10)) = true :=
  ⟨by decide, by decide, by decide, by decide, by decide,
    ((clampNumber_within_bounds (.finite 15) .negInf (.finite 10)).1
      (by decide) (by decide) (by decide)).1,
    ((clampNumber_within_bounds (.finite 15) .negInf (.finite 10)).1
      (by decide) (by decide) (by decide)).2 (by decide)⟩

/-! ## The ramp of the stats counter -/

theorem ramp_three_after_hundred :
    rampTicks 100 (startRamp 0 3) =
      { stat := 0, target := 3, current := .finite (6755399441055733 * 2 ^ 1023),
        increment := .finite (1080863910568919 * 2 ^ 1019),
        textContent := some (.finite (2 * 2 ^ 1074)), running := true } := by
  decide!

theorem ramp_hundred_after_ninety_nine :
    rampTicks 99 (startRamp 0 100) =
      { stat := 0, target := 100, current := .finite (99 * 2 ^ 1074),
        increment := .finite (2 ^ 1074),
        textContent := some (.finite (99 * 2 ^ 1074)), running := true } := by
  decide!

/-- C18, refuted by the code: for the target 3 the increment is the double nearest to 0.03,
and a hundred additions of it give a double below 3: after the hundredth firing the text is 2
and the interval is still set, and only the firing after that writes 3 and clears it. For the
target 100, whose increment is exactly 1, the hundredth firing writes 100 and clears the
interval. -/
theorem ramp_overruns_hundred_steps :
    (startRamp 0 3).increment = .finite (1080863910568919 * 2 ^ 1019) ∧
      (rampTicks 100 (startRamp 0 3)).current = .finite (6755399441055733 * 2 ^ 1023) ∧
      Double.lt (rampTicks 100 (startRamp 0 3)).current (Double.ofInt 3) = true ∧
      (rampTicks 100 (startRamp 0 3)).textContent = some (Double.ofInt 2) ∧
      (rampTicks 100 (startRamp 0 3)).running = true ∧
      (rampTicks 101 (startRamp 0 3)).textContent = some (Double.ofInt 3) ∧
      (rampTicks 101 (startRamp 0 3)).running = false ∧
      (rampTicks 99 (startRamp 0 100)).textContent = some (Double.ofInt 99) ∧
      (rampTicks 99 (startRamp 0 100)).running = true ∧
      (rampTicks 100 (startRamp 0 100)).textContent = some (Double.ofInt 100) ∧
      (rampTicks 100 (startRamp 0 100)).running = false := by
  have h3 : rampTicks 101 (startRamp 0 3) = rampTick (rampTicks 100 (startRamp 0 3)) :=
    rampTicks_succ 100 _
  have h100 : rampTicks 100 (startRamp 0 100) = rampTick (rampTicks 99 (startRamp 0 100)) :=
    rampTicks_succ 99 _
  rw [h3, h100, ramp_three_after_hundred, ramp_hundred_after_ninety_nine]
  decide!

/-! ## Capitalising -/

theorem mapCase_ascii (ascii : Nat → Nat) (uni : CaseTable) (s : JSString) (i : Nat)
    (rest : JSString) (h : ∀ c ∈ rest, c < 0x80) :
    mapCase ascii uni s i rest = rest.map ascii := by
  induction rest generalizing i with
  | nil => rfl
  | cons c cs ih =>
    have hc : c < 0x80 := h c (List.mem_cons_self _ _)
    have hcs : ∀ d ∈ cs, d < 0x80 := fun d hd => h d (List.mem_cons_of_mem _ hd)
    simp only [mapCase, if_pos hc, ih (i + 1) hcs, List.map_cons, List.singleton_append]

theorem capitalize_ascii (upper lower : CaseTable) (c : Nat) (rest : JSString)
    (h : ∀ d ∈ c :: rest, d < 0x80) :
    capitalize upper lower (c :: rest) = asciiUpper c :: rest.map asciiLower := by
  have hc : ∀ d ∈ [c], d < 0x80 := fun d hd => h d (by simp_all)
  have hr : ∀ d ∈ rest, d < 0x80 := fun d hd => h d (List.mem_cons_of_mem _ hd)
  show toUpperCase upper [c] ++ toLowerCase lower rest = _
  unfold toUpperCase toLowerCase
  rw [mapCase_ascii _ _ _ _ _ hc, mapCase_ascii _ _ _ _ _ hr]
  rfl

theorem capitalize_eq_firstChar (upper lower : CaseTable) (str : JSString)
    (h : firstCharLength str ≤ 1) :
    capitalize upper lower str = capitalizeFirstChar upper lower str := by
  unfold capitalize capitalizeFirstChar
  match str, h with
  | [], _ => rfl
  | [_], _ => rfl
  | a :: b :: rest, h =>
    have h1 : firstCharLength (a :: b :: rest) = 1 := by
      simp only [firstCharLength] at h ⊢
      split_ifs at h ⊢
      · omega
      · rfl
    rw [h1]
    rfl

/-- C9, refuted by the code: `capitalize` takes the first code unit, not the first character.
On the Deseret small letter U+10428 followed by `X` it upper-cases the lone first half of the
surrogate pair, which has no upper case, and returns the small letter again, where the
upper-casing of the first character gives the capital U+10400. On a string that starts with a
single-unit character it does capitalize. -/
theorem capitalize_misses_surrogate_pair :
    firstCharLength [0xD801, 0xDC28, 0x58] = 2 ∧
      toUpperCase deseretUpper [0xD801, 0xDC28] = [0xD801, 0xDC00] ∧
      toLowerCase deseretLower [0x58] = [0x78] ∧
      capitalizeFirstChar deseretUpper deseretLower [0xD801, 0xDC28, 0x58] =
        [0xD801, 0xDC00, 0x78] ∧
      capitalize deseretUpper deseretLower [0xD801, 0xDC28, 0x58] = [0xD801, 0xDC28, 0x78] ∧
      capitalize deseretUpper deseretLower (lit "hELLO wORLD") = lit "Hello world" ∧
      capitalize deseretUpper deseretLower (lit "") = lit "" := by
  decide

/-! ## A second visibility signal on any element -/

theorem modify_eq_set {α : Type} (f : α → α) (l : List α) (i : Nat) (a : α)
    (h : l.get? i = some a) : l.modify f i = l.set i (f a) := by
  induction l generalizing i with
  | nil => simp at h
  | cons x xs ih =>
    cases i with
    | zero =>
      simp only [List.get?_cons_zero, Option.some.injEq] at h
      subst h
      simp
    | succ i =>
      simp only [List.get?_cons_succ] at h
      simp [ih i h]

theorem fire_appended (p : AosPage) (i : Nat) (el : AosElement)
    (h : p.elements.get? i = some el) (t : AosTimeout) :
    fireTimeout p.timeouts.length { p with timeouts := p.timeouts ++ [(i, t)] } =
      { p with elements := p.elements.set i (aosCallback t el) } := by
  unfold fireTimeout
  have hget : (p.timeouts ++ [(i, t)]).get? p.timeouts.length = some (i, t) := by
    simp [List.get?_eq_getElem?]
  have herase : (p.timeouts ++ [(i, t)]).eraseIdx p.timeouts.length = p.timeouts := by
    rw [List.eraseIdx_append_of_length_le (le_refl _)]
    simp
  simp only [hget, herase, modify_eq_set _ _ i el h]

theorem set_fixed {α : Type} (l : List α) (i : Nat) (a : α) (h : l.get? i = some a) :
    l.set i a = l := by
  induction l generalizing i with
  | nil => simp
  | cons x xs ih =>
    cases i with
    | zero =>
      simp only [List.get?_cons_zero, Option.some.injEq] at h
      subst h
      simp
    | succ i =>
      simp only [List.get?_cons_succ] at h
      simp [ih i h]

theorem animated_fields (el : AosElement) :
    ∃ (t f : JSString), f ∈ identityTransforms ∧
      animated el =
        { el with
          transition := t, opacity := lit "1", transform := f
          classList := classListAdd el.classList (lit "aos-animate") } := by
  simp only [animated, aosCallback]
  split_ifs <;> refine ⟨_, _, ?_, rfl⟩ <;> dsimp only <;> decide

theorem classListAdd_eq_self_iff (classList : List JSString) (name : JSString) :
    classListAdd classList name = classList ↔ name ∈ classList := by
  constructor
  · intro h
    have := mem_classListAdd classList name
    rw [h] at this
    exact this
  · intro h
    unfold classListAdd
    rw [if_pos h]

theorem animated_eq_self_iff (el : AosElement) :
    animated el = el ↔
      el.transition = (animated el).transition ∧ el.opacity = lit "1" ∧
        el.transform = (animated el).transform ∧ lit "aos-animate" ∈ el.classList := by
  obtain ⟨t, f, _, hA⟩ := animated_fields el
  rw [hA]
  cases el
  simp only [AosElement.mk.injEq, true_and, classListAdd_eq_self_iff]
  constructor
  · rintro ⟨h1, h2, h3, h4⟩
    exact ⟨h1.symm, h2.symm, h3.symm, h4⟩
  · rintro ⟨h1, h2, h3, h4⟩
    exact ⟨h1.symm, h2.symm, h3.symm, h4⟩

theorem aosCallback_congr (t : AosTimeout) (a b : AosElement) (h1 : a.dataAos = b.dataAos)
    (h2 : a.dataAosDelay = b.dataAosDelay) (h3 : a.dataAosDuration = b.dataAosDuration)
    (h4 : a.classList = b.classList) : aosCallback t a = aosCallback t b := by
  cases a
  cases b
  simp only at h1 h2 h3 h4
  subst h1 h2 h3 h4
  simp only [aosCallback]

theorem animated_transform_mem (el : AosElement) :
    (animated el).transform ∈ identityTransforms := by
  obtain ⟨t, f, hf, hA⟩ := animated_fields el
  rw [hA]
  exact hf

theorem animated_of_restyled (el restyled : AosElement)
    (h1 : restyled.dataAos = (animated el).dataAos)
    (h2 : restyled.dataAosDelay = (animated el).dataAosDelay)
    (h3 : restyled.dataAosDuration = (animated el).dataAosDuration)
    (h4 : restyled.classList = (animated el).classList) :
    animated restyled = animated el := by
  have ht : animateElement restyled = animateElement el := by
    rw [← animateElement_animated el]
    simp only [animateElement, h1, h2, h3]
  unfold animated at h1 h2 h3 h4 ⊢
  rw [ht, aosCallback_congr _ _ _ h1 h2 h3 h4]
  exact aosCallback_idem (animateElement el) el

theorem animated_addHoverEffect (el : AosElement) :
    animated (addHoverEffect (animated el)) = animated el ∧
      addHoverEffect (animated el) ≠ animated el := by
  constructor
  · exact animated_of_restyled el _ rfl rfl rfl rfl
  · intro h
    have ht := animated_transform_mem el
    rw [← h] at ht
    revert ht
    simp only [addHoverEffect]
    decide

theorem animated_removeHoverEffect (el : AosElement) :
    animated (removeHoverEffect (addHoverEffect (animated el))) = animated el ∧
      removeHoverEffect (addHoverEffect (animated el)) ≠ animated el := by
  constructor
  · exact animated_of_restyled el _ rfl rfl rfl rfl
  · intro h
    have ht := animated_transform_mem el
    rw [← h] at ht
    revert ht
    simp only [addHoverEffect, removeHoverEffect]
    decide

/-- C21, amended: whatever state the element is in, a second intersecting entry sets one
further timeout, which is the first one again as long as the three attributes are the same,
and leaves the elements as they are; when that timeout fires the element becomes what
`animateElement` makes of it, which is the element itself exactly when its transition, opacity
and transform already have the values written and the class is there. So nothing changes for
an element still as the first animation left it, while the transform and transition written
by a hover handler since are overwritten. An entry that does not intersect does nothing. -/
theorem second_signal_rewrites_terminal_state (p : AosPage) (i : Nat) (el : AosElement)
    (h : p.elements.get? i = some el) :
    observerCallback [⟨i, true⟩] p =
        { p with timeouts := p.timeouts ++ [(i, animateElement el)] } ∧
      (∀ first : AosElement, el.dataAos = first.dataAos →
        el.dataAosDelay = first.dataAosDelay → el.dataAosDuration = first.dataAosDuration →
        animateElement el = animateElement first) ∧
      fireTimeout p.timeouts.length (observerCallback [⟨i, true⟩] p) =
        { p with elements := p.elements.set i (animated el) } ∧
      (animated el = el ↔
        el.transition = (animated el).transition ∧ el.opacity = lit "1" ∧
          el.transform = (animated el).transform ∧ lit "aos-animate" ∈ el.classList) ∧
      (∀ first : AosElement, el = animated first →
        fireTimeout p.timeouts.length (observerCallback [⟨i, true⟩] p) = p) ∧
      (∀ first : AosElement, el = addHoverEffect (animated first) →
        animated el = animated first ∧ animated el ≠ el ∧
        fireTimeout p.timeouts.length (observerCallback [⟨i, true⟩] p) ≠ p) ∧
      (∀ first : AosElement, el = removeHoverEffect (addHoverEffect (animated first)) →
        animated el = animated first ∧ animated el ≠ el ∧
        fireTimeout p.timeouts.length (observerCallback [⟨i, true⟩] p) ≠ p) ∧
      observerCallback [⟨i, false⟩] p = p := by
  have h1 := observerCallback_single p i el h
  have hfire : fireTimeout p.timeouts.length (observerCallback [⟨i, true⟩] p) =
      { p with elements := p.elements.set i (animated el) } := by
    rw [h1]
    exact fire_appended p i el h (animateElement el)
  have hne : animated el ≠ el →
      fireTimeout p.timeouts.length (observerCallback [⟨i, true⟩] p) ≠ p := by
    intro hd heq
    rw [hfire] at heq
    have he : (p.elements.set i (animated el)).get? i = p.elements.get? i := by
      have := congrArg AosPage.elements heq
      simp only at this
      rw [this]
    have hi : i < p.elements.length := by
      rcases Nat.lt_or_ge i p.elements.length with hlt | hge
      · exact hlt
      · rw [List.get?_eq_none.mpr hge] at h
        cases h
    rw [h, List.get?_eq_getElem?, List.getElem?_set_self hi] at he
    exact hd (Option.some.inj he)
  refine ⟨h1, ?_, hfire, animated_eq_self_iff el, ?_, ?_, ?_, by simp [observerCallback]⟩
  · intro first e1 e2 e3
    simp only [animateElement, e1, e2, e3]
  · intro first hel
    rw [hfire]
    have hfix : animated el = el := by
      rw [hel]
      exact animated_of_restyled first (animated first) rfl rfl rfl rfl
    rw [hfix, set_fixed _ _ _ h]
  · intro first hel
    have := animated_addHoverEffect first
    rw [← hel] at this
    have hd : animated el ≠ el := by
      rw [this.1]
      exact fun e => this.2 e.symm
    exact ⟨this.1, hd, hne hd⟩
  · intro first hel
    have := animated_removeHoverEffect first
    rw [← hel] at this
    have hd : animated el ≠ el := by
      rw [this.1]
      exact fun e => this.2 e.symm
    exact ⟨this.1, hd, hne hd⟩

theorem second_signal_rewrites_terminal_state_witness :
    (⟨[addHoverEffect (animated (sampleElement (some (lit "zoom-in")) (some (lit "200")) none))],
        []⟩ : AosPage).elements.get? 0 =
      some (addHoverEffect
        (animated (sampleElement (some (lit "zoom-in")) (some (lit "200")) none))) ∧
    (observerCallback [⟨0, true⟩]
        ⟨[addHoverEffect (animated (sampleElement (some (lit "zoom-in")) (some (lit "200")) none))],
          []⟩).timeouts
      = [(0, ⟨some (lit "zoom-in"), .attr (lit "200"), .number 600⟩)] ∧
    (addHoverEffect (animated (sampleElement (some (lit "zoom-in")) (some (lit "200")) none))).transform
      = lit "translateY(-10px) scale(1.02)" ∧
    fireTimeout 0 (observerCallback [⟨0, true⟩]
        ⟨[addHoverEffect (animated (sampleElement (some (lit "zoom-in")) (some (lit "200")) none))],
          []⟩) =
      ⟨[animated (sampleElement (some (lit "zoom-in")) (some (lit "200")) none)], []⟩ ∧
    fireTimeout 0 (observerCallback [⟨0, true⟩]
        ⟨[addHoverEffect (animated (sampleElement (some (lit "zoom-in")) (some (lit "200")) none))],
          []⟩) ≠
      ⟨[addHoverEffect (animated (sampleElement (some (lit "zoom-in")) (some (lit "200")) none))],
        []⟩ :=
  ⟨rfl, by decide, by decide, by decide,
    ((second_signal_rewrites_terminal_state
      ⟨[addHoverEffect (animated (sampleElement (some (lit "zoom-in")) (some (lit "200")) none))],
        []⟩ 0
      (addHoverEffect (animated (sampleElement (some (lit "zoom-in")) (some (lit "200")) none)))
      rfl).2.2.2.2.2.1 (sampleElement (some (lit "zoom-in")) (some (lit "200")) none) rfl).2.2⟩

/-! ## The typewriter on an empty phrase -/

theorem typeNumber_eq_type (texts : List JSString) (tw : Typewriter)
    (h : tw.charIndex.natAbs < 2 ^ 53) : typeNumber texts tw = type texts tw := by
  have h1 : nearestNumber (tw.charIndex + 1) = tw.charIndex + 1 :=
    nearestNumber_exact _ (by omega)
  have h2 : nearestNumber (tw.charIndex - 1) = tw.charIndex - 1 :=
    nearestNumber_exact _ (by omega)
  unfold typeNumber type
  rw [h1, h2]

theorem nearestNumber_succ (c : Nat) (h : c ≤ 2 ^ 53) :
    nearestNumber ((c : Int) + 1) = ((min (c + 1) (2 ^ 53) : Nat) : Int) := by
  rcases Nat.lt_or_ge c (2 ^ 53) with hlt | hge
  · rw [nearestNumber_exact _ (by omega), Nat.min_eq_left (by omega)]
    rfl
  · have hc : c = 2 ^ 53 := le_antisymm h hge
    subst hc
    decide

theorem substring_nil (a b : Int) : substring [] a b = [] := by
  simp [substring]

theorem typeNumber_on_empty (texts : List JSString) (i : Nat) (h : texts.get? i = some [])
    (c sp : Nat) (txt : JSString) (hc : c ≤ 2 ^ 53) :
    typeNumber texts ⟨i, (c : Int), false, sp, txt⟩ =
      some ⟨i, ((min (c + 1) (2 ^ 53) : Nat) : Int), false, 100, []⟩ := by
  have hpos : ¬ (((min (c + 1) (2 ^ 53) : Nat) : Int) = 0) := by
    have : 1 ≤ min (c + 1) (2 ^ 53) := by
      apply Nat.le_min.mpr
      exact ⟨by omega, Nat.one_le_two_pow⟩
    omega
  unfold typeNumber
  simp only [h, Bool.false_eq_true, if_false, nearestNumber_succ c hc, substring_nil,
    Bool.not_false, Bool.true_and, Bool.false_and, List.length_nil, Nat.cast_zero, beq_iff_eq,
    if_neg hpos]

theorem ticksNumber_on_empty (texts : List JSString) (i : Nat) (h : texts.get? i = some [])
    (n c sp : Nat) (txt : JSString) (hc : c ≤ 2 ^ 53) :
    ticksNumber texts (n + 1) ⟨i, (c : Int), false, sp, txt⟩ =
      some ⟨i, ((min (c + (n + 1)) (2 ^ 53) : Nat) : Int), false, 100, []⟩ := by
  induction n generalizing c sp txt with
  | zero =>
    simp only [ticksNumber, typeNumber_on_empty texts i h c sp txt hc, Option.some_bind]
  | succ n ih =>
    rw [ticksNumber, typeNumber_on_empty texts i h c sp txt hc, Option.some_bind,
      ih (min (c + 1) (2 ^ 53)) 100 [] (Nat.min_le_right _ _)]
    congr 3
    omega

theorem displayedNumber_on_empty (texts : List JSString) (i : Nat)
    (h : texts.get? i = some []) (n c sp : Nat) (txt : JSString) (hc : c ≤ 2 ^ 53) :
    displayedNumber texts n ⟨i, (c : Int), false, sp, txt⟩ = List.replicate n [] := by
  induction n generalizing c sp txt with
  | zero => rfl
  | succ n ih =>
    rw [displayedNumber, typeNumber_on_empty texts i h c sp txt hc]
    simp only
    rw [ih (min (c + 1) (2 ^ 53)) 100 [] (Nat.min_le_right _ _), List.replicate_succ]

theorem typeNumber_first_phrase (txt : JSString) :
    typeNumber [lit "a", lit "", lit "b"] (initTypewriter txt) =
        some ⟨0, 1, true, 1500, lit "a"⟩ ∧
      typeNumber [lit "a", lit "", lit "b"] ⟨0, 1, true, 1500, lit "a"⟩ =
        some ⟨1, 0, false, 500, []⟩ := by
  constructor
  · rw [typeNumber_eq_type _ (initTypewriter txt) (by show (0 : Int).natAbs < 2 ^ 53; decide)]
    exact type_typing [lit "a", lit "", lit "b"] 0 0 100 txt (lit "a") rfl
  · decide

/-- C24, refuted as stated: the character index does not grow without bound. At `2^53` the
increment `charIndex++` stores `2^53` again, the double nearest to `2^53 + 1`, so a tick on
the empty phrase leaves the whole state as it is. -/
theorem typewriter_index_stops_growing :
    nearestNumber (2 ^ 53 + 1) = 2 ^ 53 ∧
      Double.add (Double.ofInt (2 ^ 53)) (Double.ofInt 1) = Double.ofInt (2 ^ 53) ∧
      typeNumber [lit "a", lit "", lit "b"] ⟨1, 2 ^ 53, false, 100, []⟩ =
        some ⟨1, 2 ^ 53, false, 100, []⟩ ∧
      typeNumber [lit "a", lit "", lit "b"] ⟨1, 2 ^ 53 - 1, false, 100, []⟩ =
        some ⟨1, 2 ^ 53, false, 100, []⟩ := by
  decide!

/-- C24, amended: when the current phrase is the empty string the typewriter stays on it: after
every further tick the phrase index is the same, the deleting flag is false, the text shown is
empty, and the character index has grown by one until it has reached `2^53`, where it stays;
so with the phrases of `a,,b` the phrase `b` is never shown, and with the empty `data-text`
nothing is. -/
theorem typewriter_stuck_on_empty (texts : List JSString) (i : Nat)
    (h : texts.get? i = some []) (c sp : Nat) (txt : JSString) (hc : c ≤ 2 ^ 53) (n : Nat) :
    ticksNumber texts (n + 1) ⟨i, (c : Int), false, sp, txt⟩ =
        some ⟨i, ((min (c + (n + 1)) (2 ^ 53) : Nat) : Int), false, 100, []⟩ ∧
      displayedNumber texts n ⟨i, (c : Int), false, sp, txt⟩ = List.replicate n [] ∧
      splitOnComma (lit "a,,b") = [lit "a", lit "", lit "b"] ∧
      splitOnComma (lit "") = [lit ""] ∧
      ticksNumber (splitOnComma (lit "a,,b")) 2 (initTypewriter txt) =
        some ⟨1, 0, false, 500, []⟩ ∧
      ticksNumber (splitOnComma (lit "a,,b")) (n + 1 + 2) (initTypewriter txt) =
        some ⟨1, ((min (n + 1) (2 ^ 53) : Nat) : Int), false, 100, []⟩ ∧
      displayedNumber (splitOnComma (lit "a,,b")) (n + 2) (initTypewriter txt) =
        [lit "a", lit ""] ++ List.replicate n [] ∧
      displayedNumber (splitOnComma (lit "")) n (initTypewriter txt) = List.replicate n [] := by
  have hsplit : splitOnComma (lit "a,,b") = [lit "a", lit "", lit "b"] := by decide
  have hs : splitOnComma (lit "") = [lit ""] := by decide
  obtain ⟨f1, f2⟩ := typeNumber_first_phrase txt
  have hzero := ticksNumber_on_empty [lit "a", lit "", lit "b"] 1 rfl n 0 500 []
    (Nat.zero_le _)
  have dzero := displayedNumber_on_empty [lit "a", lit "", lit "b"] 1 rfl n 0 500 []
    (Nat.zero_le _)
  rw [Nat.cast_zero] at hzero dzero
  rw [Nat.zero_add] at hzero
  refine ⟨ticksNumber_on_empty texts i h n c sp txt hc,
    displayedNumber_on_empty texts i h n c sp txt hc, hsplit, hs, ?_, ?_, ?_, ?_⟩
  · rw [hsplit]
    simp only [ticksNumber, f1, f2, Option.some_bind]
  · rw [hsplit]
    show (typeNumber _ _).bind (fun tw => (typeNumber _ tw).bind (ticksNumber _ (n + 1))) = _
    rw [f1, Option.some_bind, f2, Option.some_bind]
    exact hzero
  · rw [hsplit]
    simp only [displayedNumber, f1, f2]
    rw [dzero]
    rfl
  · rw [hs]
    have := displayedNumber_on_empty [lit ""] 0 rfl n 0 100 txt (Nat.zero_le _)
    rw [Nat.cast_zero] at this
    exact this

theorem typewriter_stuck_on_empty_witness :
    [lit "a", lit "", lit "b"].get? 1 = some [] ∧ 0 ≤ 2 ^ 53 ∧
      ticksNumber [lit "a", lit "", lit "b"] (4 + 1) ⟨1, ((0 : Nat) : Int), false, 500, []⟩ =
        some ⟨1, ((min (0 + (4 + 1)) (2 ^ 53) : Nat) : Int), false, 100, []⟩ :=
  ⟨rfl, by decide,
    (typewriter_stuck_on_empty [lit "a", lit "", lit "b"] 1 rfl 0 500 [] (by decide) 4).1⟩

end InteractiveResume
